import Mathlib

/-!
# unifi-discovery: pagination iterator and discovery handler

A shallow embedding of `main.go`: `GetJSON`, `GetList` (the range-over-func
iterator) and `Discovery.ServeHTTP`, followed by theorems about them.

Conventions of the embedding

* Go `int` is the 64-bit two's-complement integer of the 64-bit platforms:
  values are `Int`, and every addition the program performs goes through
  `wrapInt`.
* The collaborators that live outside the repository (`net/url`, `net/http`,
  `path`, `encoding/json` and the remote API) are the fields of `Env` and the
  `decode` arguments.  The remote API may answer a request differently
  depending on the requests it has seen before, so `Env.Do` receives that
  history.
* An iterator `iter.Seq2[T, error]` is a function of its `yield` callback, as
  in Go.  The callback works on a `Run`: the log of page requests made so far
  together with the local variables of the consumer.
* `for { ... }` has no bound, so the loop takes fuel: one unit per iteration.
  A run that uses up its fuel ends in `Except.error s`, where `s` is the state
  reached so far; a run that returns ends in `Except.ok`.
-/

namespace UnifiDiscovery

/-! ## Machine integers -/

/-- Reduction of an integer to the range of Go `int` (64 bit, two's complement). -/
def wrapInt (x : Int) : Int :=
  (x + 9223372036854775808) % 18446744073709551616 - 9223372036854775808

/-- The values a Go `int` can hold. -/
def isInt (x : Int) : Prop :=
  -9223372036854775808 ≤ x ∧ x < 9223372036854775808

/-- Membership in the range of Go `int` can be computed. -/
instance (x : Int) : Decidable (isInt x) := by
  unfold isInt
  infer_instance

/-! ## Data model -/

/-- The type `listResponse[T]`: the common list output of the API. -/
structure listResponse (D : Type) where
  Offset : Int
  Limit : Int
  Count : Int
  TotalCount : Int
  Data : D

/-- The type `site`. -/
structure site where
  ID : String
deriving DecidableEq, Repr

/-- The type `device`. -/
structure device where
  ID : String
  Name : String
  Model : String
  MacAddress : String
  State : String
  IPAddress : String
deriving DecidableEq, Repr

/-- Zero value of `site`. -/
instance : Inhabited site := ⟨⟨""⟩⟩

/-- Zero value of `device`. -/
instance : Inhabited device := ⟨⟨"", "", "", "", "", ""⟩⟩

/-- The type `target`: a target definition for Grafana Alloy.  `Labels` is the
map literal, as its key/value pairs. -/
structure target where
  Targets : List String
  Labels : List (String × String)
deriving DecidableEq, Repr

/-- The type `unifi`: the API client. -/
structure unifi where
  host : String
  apiKey : String

/-! ## Requests, errors and the outside world -/

/-- The URL of a page request: the string `u2.String()` of `GetList`, kept as
the endpoint `u` and the value of its `offset` query parameter. -/
structure Request where
  url : String
  offset : Int
deriving DecidableEq, Repr

/-- An HTTP response as `GetJSON` sees it. -/
structure Response where
  StatusCode : Nat
  Body : String
deriving DecidableEq, Repr

/-- The errors `GetList` can yield.  `parse` is the error of `url.Parse(u)`,
the other three are the errors `GetJSON` builds with `fmt.Errorf`. -/
inductive Err where
  | parse (text : String)
  | creatingRequest (inner : String)
  | roundTrip (method : String) (u : String) (inner : String)
  | decoding (inner : String)
deriving DecidableEq, Repr

/-- The method `Error()` of an error value. -/
def Err.Error : Err → String
  | .parse text => text
  | .creatingRequest inner => "creating request: " ++ inner
  | .roundTrip method u inner => method ++ " " ++ u ++ ": " ++ inner
  | .decoding inner => "decoding response: " ++ inner

/-- Everything outside the repository that the code calls. -/
structure Env where
  /-- Text of the error of `url.Parse(u)`, when it fails. -/
  urlParseErr : String → Option String
  /-- Text of `u2.String()` once the offset parameter is set. -/
  urlString : Request → String
  /-- Text of the error of `http.NewRequestWithContext`, when it fails. -/
  newRequestErr : Request → Option String
  /-- Outcome of `client.Do(req)`, given the page requests made before it. -/
  Do : unifi → List Request → Request → Except String Response
  /-- The function `path.Join`. -/
  Join : List String → String
  /-- The string of `(&url.URL{https, host, /proxy/network/integration/}).JoinPath(endpoint)`. -/
  JoinPath : String → String → String
  /-- The error of `enc.Encode(tt)` on the response writer, if any. -/
  writeErr : Option String

/-- The method `(*unifi).Do`. -/
def unifi.Do (client : unifi) (env : Env) (hist : List Request) (req : Request) :
    Except String Response :=
  env.Do client hist req

/-- The method `(*unifi).URL`, followed by `.String()`. -/
def unifi.URL (client : unifi) (env : Env) (endpoint : String) : String :=
  env.JoinPath client.host endpoint

/-- One entry of the request log: the page request and the error `GetJSON`
returned for it, if any. -/
structure Call where
  req : Request
  err : Option Err
deriving DecidableEq, Repr

/-- State threaded through an iteration: the log of page requests (oldest
first) and the consumer's own variables. -/
structure Run (κ : Type) where
  calls : List Call
  user : κ

/-- Add a page request and its outcome to the log. -/
def Run.log {κ : Type} (s : Run κ) (req : Request) (err : Option Err) : Run κ :=
  { s with calls := s.calls ++ [⟨req, err⟩] }

/-- The `yield` callback of an `iter.Seq2[T, error]`: `true` asks for more. -/
abbrev Yield (T κ : Type) := T → Option Err → Run κ → Except (Run κ) (Bool × Run κ)

/-! ## GetJSON and GetList -/

/-- The function `GetJSON`: build the request, send it, decode the body. -/
def GetJSON {O : Type} (env : Env) (client : unifi) (decode : String → Except String O)
    (hist : List Request) (req : Request) : Except Err O :=
  match env.newRequestErr req with
  | some inner => .error (.creatingRequest inner)
  | none =>
    match client.Do env hist req with
    | .error inner => .error (.roundTrip "GET" (env.urlString req) inner)
    | .ok res =>
      match decode res.Body with
      | .error inner => .error (.decoding inner)
      | .ok o => .ok o

/-- The inner loop of `GetList`: `for _, s := range res.Data { if !yield(s, nil) { return } }`.
The boolean of the result is `false` when the consumer asked to stop. -/
def yieldData {T κ : Type} (yield : Yield T κ) : List T → Run κ → Except (Run κ) (Bool × Run κ)
  | [], s => .ok (true, s)
  | x :: xs, s =>
    match yield x none s with
    | .error s1 => .error s1
    | .ok (false, s1) => .ok (false, s1)
    | .ok (true, s1) => yieldData yield xs s1

/-- The loop `for { ... }` of `GetList`, started with the given cursor. -/
def GetList.loop {T κ : Type} [Inhabited T] (env : Env) (client : unifi)
    (decode : String → Except String (listResponse (List T))) (u : String)
    (yield : Yield T κ) : Nat → Int → Run κ → Except (Run κ) (Run κ)
  | 0, _, s => .error s
  | fuel + 1, offset, s =>
    match env.urlParseErr u with
    | some text =>
      match yield default (some (.parse text)) s with
      | .error s1 => .error s1
      | .ok (_, s1) => .ok s1
    | none =>
      let req : Request := ⟨u, offset⟩
      match GetJSON env client decode (s.calls.map Call.req) req with
      | .error e =>
        match yield default (some e) (s.log req (some e)) with
        | .error s1 => .error s1
        | .ok (_, s1) => .ok s1
      | .ok res =>
        match yieldData yield res.Data (s.log req none) with
        | .error s1 => .error s1
        | .ok (false, s1) => .ok s1
        | .ok (true, s1) =>
          if wrapInt (res.Offset + res.Count) ≥ res.TotalCount then .ok s1
          else GetList.loop env client decode u yield fuel (wrapInt (res.Offset + res.Count)) s1

/-- The function `GetList`: the iterator over an endpoint that returns lists. -/
def GetList {T κ : Type} [Inhabited T] (env : Env) (client : unifi)
    (decode : String → Except String (listResponse (List T))) (u : String)
    (yield : Yield T κ) (fuel : Nat) (s : Run κ) : Except (Run κ) (Run κ) :=
  GetList.loop env client decode u yield fuel 0 s

/-- A consumer that never stops pulling and records every pair it is given. -/
def collect {T : Type} : Yield T (List (T × Option Err)) :=
  fun x e s => .ok (true, { s with user := s.user ++ [(x, e)] })

/-- The sequence `GetList` yields to a consumer that keeps pulling, with the
log of the page requests it made. -/
def pull {T : Type} [Inhabited T] (env : Env) (client : unifi)
    (decode : String → Except String (listResponse (List T))) (u : String) (fuel : Nat) :
    Except (Run (List (T × Option Err))) (Run (List (T × Option Err))) :=
  GetList env client decode u collect fuel ⟨[], []⟩

/-! ## The handler -/

/-- A JSON value. -/
inductive JSON where
  | null
  | str (s : String)
  | arr (items : List JSON)
  | obj (members : List (String × JSON))

/-- What the handler writes as the body. -/
inductive Body where
  /-- The line `http.Error` writes: the message followed by a newline. -/
  | errorLine (msg : String)
  /-- The line `enc.Encode` writes: the indented value followed by a newline. -/
  | jsonLine (v : JSON)

/-- The calls made on the `http.ResponseWriter`. -/
structure ResponseRecorder where
  ContentType : String
  Code : Nat
  Body : Body
  /-- Argument of `panic`, when encoding the body failed. -/
  panicked : Option String

/-- A Go slice that may be nil: `none` is the nil slice. -/
abbrev Slice (α : Type) := Option (List α)

/-- The builtin `append(tt, x)`. -/
def Slice.append {α : Type} : Slice α → α → Slice α
  | none, x => some [x]
  | some l, x => some (l ++ [x])

/-- The elements of a slice. -/
def Slice.elems {α : Type} : Slice α → List α
  | none => []
  | some l => l

/-- JSON encoding of a `map[string]string`: an object, keys sorted. -/
def marshalLabels (m : List (String × String)) : JSON :=
  .obj ((m.insertionSort (fun a b => a.1 ≤ b.1)).map (fun kv => (kv.1, JSON.str kv.2)))

/-- JSON encoding of a `target`, by its struct tags. -/
def marshalTarget (t : target) : JSON :=
  .obj [("targets", .arr (t.Targets.map JSON.str)), ("labels", marshalLabels t.Labels)]

/-- JSON encoding of a `[]target`: a nil slice encodes as `null`. -/
def marshal : Slice target → JSON
  | none => .null
  | some l => .arr (l.map marshalTarget)

/-- The target record `ServeHTTP` builds for a device. -/
def mkTarget (dv : device) : target :=
  { Targets := [dv.IPAddress]
    Labels := [("device_id", dv.ID), ("device_name", dv.Name), ("device_model", dv.Model)] }

/-- Local state of `ServeHTTP` while it iterates: the slice `tt`, and the
message passed to `http.Error` once a loop body has returned through it. -/
structure Handler where
  tt : Slice target
  failed : Option String

/-- The function `http.Error(w, msg, code)`. -/
def httpError (msg : String) (code : Nat) : ResponseRecorder :=
  { ContentType := "text/plain; charset=utf-8", Code := code, Body := .errorLine msg,
    panicked := none }

/-- Body of the inner loop of `ServeHTTP`, over the devices of one site. -/
def deviceBody : Yield device Handler :=
  fun dv err s =>
    match err with
    | some e => .ok (false, { s with user := { s.user with failed := some e.Error } })
    | none => .ok (true, { s with user := { s.user with tt := s.user.tt.append (mkTarget dv) } })

/-- URL of the sites list. -/
def sitesURL (env : Env) (client : unifi) : String :=
  client.URL env (env.Join ["v1", "sites"])

/-- URL of the devices list of a site. -/
def devicesURL (env : Env) (client : unifi) (id : String) : String :=
  client.URL env (env.Join ["v1", "sites", id, "devices"])

/-- Body of the outer loop of `ServeHTTP`, over the sites.  A `return` in the
inner loop body also leaves this one. -/
def siteBody (env : Env) (client : unifi)
    (decodeDevices : String → Except String (listResponse (List device))) (fuel : Nat) :
    Yield site Handler :=
  fun st err s =>
    match err with
    | some e => .ok (false, { s with user := { s.user with failed := some e.Error } })
    | none =>
      match GetList env client decodeDevices (devicesURL env client st.ID) deviceBody fuel s with
      | .error s1 => .error s1
      | .ok s1 =>
        match s1.user.failed with
        | some _ => .ok (false, s1)
        | none => .ok (true, s1)

/-- What one inbound request leaves behind: the page requests made upstream
and the response written. -/
structure Exchange where
  calls : List Call
  w : ResponseRecorder

/-- The method `(*Discovery).ServeHTTP`, with `client` for `d.Client`: the two
nested loops, then either the response of `http.Error` or the encoded `tt`. -/
def ServeHTTP (env : Env) (client : unifi)
    (decodeSites : String → Except String (listResponse (List site)))
    (decodeDevices : String → Except String (listResponse (List device))) (fuel : Nat) :
    Except (Run Handler) Exchange :=
  match GetList env client decodeSites (sitesURL env client)
      (siteBody env client decodeDevices fuel) fuel ⟨[], ⟨none, none⟩⟩ with
  | .error s => .error s
  | .ok s =>
    match s.user.failed with
    | some msg => .ok ⟨s.calls, httpError msg 500⟩
    | none =>
      .ok ⟨s.calls, { ContentType := "application/json", Code := 200,
                      Body := .jsonLine (marshal s.user.tt), panicked := env.writeErr }⟩


/-! ## Scripts of pages -/

/-- The page requests `GetList` sends while it is served the pages `ps`,
starting with cursor `off`. -/
def requestsFor {T : Type} (u : String) : Int → List (listResponse (List T)) → List Request
  | _, [] => []
  | off, p :: ps => ⟨u, off⟩ :: requestsFor u (wrapInt (p.Offset + p.Count)) ps

/-- The cursor of `GetList` after it was served the pages `ps`. -/
def cursorAfter {T : Type} : Int → List (listResponse (List T)) → Int
  | off, [] => off
  | _, p :: ps => cursorAfter (wrapInt (p.Offset + p.Count)) ps

/-- The upstream answers the successive page requests of one `GetList` over
`u` with the pages `ps`, none of them an error, when `hist` lists the requests
made before the first of them and `off` is the cursor of that first request. -/
def Serves {T : Type} (fetch : List Request → Request → Except Err (listResponse (List T)))
    (u : String) : List Request → Int → List (listResponse (List T)) → Prop
  | _, _, [] => True
  | hist, off, p :: ps =>
    fetch hist ⟨u, off⟩ = .ok p ∧
      Serves fetch u (hist ++ [⟨u, off⟩]) (wrapInt (p.Offset + p.Count)) ps

/-- The elements of a list of pages, page after page. -/
def flatten {T : Type} (ps : List (listResponse (List T))) : List T :=
  ps.flatMap (fun p => p.Data)

/-- The pairs a consumer receives for elements yielded without error. -/
def okPairs {T : Type} (xs : List T) : List (T × Option Err) :=
  xs.map (fun x => (x, none))

/-- Log entries of requests that were answered without error. -/
def okCalls (rs : List Request) : List Call :=
  rs.map (fun r => ⟨r, none⟩)

/-- Each page carries the cursor it was requested with: the first has offset
`off`, the next one that offset plus the count of the first, and so on. -/
def OffsetsFrom {T : Type} : Int → List (listResponse (List T)) → Prop
  | _, [] => True
  | off, p :: ps => p.Offset = off ∧ OffsetsFrom (off + p.Count) ps

/-- The upstream lists a collection in full over the pages `ps`: it serves
them, at least one, to the successive requests of a `GetList` over `u`; every
page reports the same `totalCount`, which is the sum of the counts; the data of
a page has as many elements as its count says; and the offset of a page is the
sum of the counts of the pages before it. -/
structure FullListing {T : Type}
    (fetch : List Request → Request → Except Err (listResponse (List T)))
    (u : String) (ps : List (listResponse (List T))) (total : Int) : Prop where
  nonempty : ps ≠ []
  serves : Serves fetch u [] 0 ps
  total_eq : ∀ p ∈ ps, p.TotalCount = total
  sum_eq : total = (ps.map (fun p => p.Count)).sum
  total_int : isInt total
  data_len : ∀ p ∈ ps, (p.Data.length : Int) = p.Count
  offsets : ∀ (i : Nat) (h : i < ps.length),
    (ps.get ⟨i, h⟩).Offset = ((ps.take i).map (fun p => p.Count)).sum

/-- The state a run has reached, whether it returned or used up its fuel. -/
def reached {σ : Type} : Except σ σ → σ
  | .ok s => s
  | .error s => s

/-! ## Conditions on the states of a run -/

/-- No page request of the log failed. -/
def NoFailure (calls : List Call) : Prop :=
  ∀ c ∈ calls, c.err = none

/-- Whether a log is free of failures can be computed. -/
instance (calls : List Call) : Decidable (NoFailure calls) := by
  unfold NoFailure
  infer_instance

/-- Effect of one turn of the devices loop of `ServeHTTP` on its variables. -/
def addDevice (k : Handler) (dv : device) : Handler :=
  { k with tt := k.tt.append (mkTarget dv) }

/-- The last page request of the log failed with `e`, and none before it failed. -/
def FailedLast (calls : List Call) (e : Err) : Prop :=
  ∃ init req, calls = init ++ [⟨req, some e⟩] ∧ NoFailure init

/-- States of the handler in which its loops go on: no page request has
failed and no loop body has returned through `http.Error`. -/
def Going (s : Run Handler) : Prop :=
  NoFailure s.calls ∧ s.user.failed = none

/-- States in which a loop of the handler may end: either no page request has
failed, or the last one has, and the message given to `http.Error` is the text
of its error. -/
def Ended (s : Run Handler) : Prop :=
  NoFailure s.calls ∨
    ∃ e, FailedLast s.calls e ∧ s.user.failed = some e.Error ∧ e.Error ≠ ""

/-- States in which a loop of the handler may run out of fuel. -/
def Starved (s : Run Handler) : Prop :=
  NoFailure s.calls

/-- A condition on the result of a loop: `starved` if the fuel ran out,
`ended` if the loop returned. -/
def PostLoop {σ : Type} (starved ended : σ → Prop) : Except σ σ → Prop
  | .error s => starved s
  | .ok s => ended s

/-- A condition on the result of a `yield`: `going` if it asks for more,
`ended` if it asks to stop. -/
def PostYield {σ : Type} (starved going ended : σ → Prop) : Except σ (Bool × σ) → Prop
  | .error s => starved s
  | .ok (true, s) => going s
  | .ok (false, s) => ended s

/-- A condition on the result of a `yield` after which the iterator returns
whatever the answer. -/
def PostLast {σ : Type} (starved ended : σ → Prop) : Except σ (Bool × σ) → Prop
  | .error s => starved s
  | .ok (_, s) => ended s

/-- The page requests made during an inbound request, within the fuel given. -/
def callsMade : Except (Run Handler) Exchange → List Call
  | .ok ex => ex.calls
  | .error s => s.calls

/-! ## Example upstreams -/

/-- An environment in which every URL parses and every request can be built;
`answer` is the remote API. -/
def envOf (answer : List Request → Request → Except String Response) : Env :=
  { urlParseErr := fun _ => none
    urlString := fun r => r.url ++ "?offset=" ++ toString r.offset
    newRequestErr := fun _ => none
    Do := fun _ => answer
    Join := fun l => "/".intercalate l
    JoinPath := fun host e => "https://" ++ host ++ "/proxy/network/integration/" ++ e
    writeErr := none }

/-- A client for the examples. -/
def exClient : unifi := ⟨"192.168.0.1", ""⟩

/-- Bodies of a sites list of three sites, served one site per page. -/
def threeSitesBody : Int → String
  | 0 => "\x7b\"offset\":0,\"limit\":1,\"count\":1,\"totalCount\":3,\"data\":[\x7b\"id\":\"s0\"\x7d]\x7d"
  | 1 => "\x7b\"offset\":1,\"limit\":1,\"count\":1,\"totalCount\":3,\"data\":[\x7b\"id\":\"s1\"\x7d]\x7d"
  | 2 => "\x7b\"offset\":2,\"limit\":1,\"count\":1,\"totalCount\":3,\"data\":[\x7b\"id\":\"s2\"\x7d]\x7d"
  | _ => "\x7b\"offset\":3,\"limit\":1,\"count\":0,\"totalCount\":3,\"data\":[]\x7d"

/-- An upstream that serves three sites, one per page, by the offset asked. -/
def threeSites : List Request → Request → Except String Response :=
  fun _ r => .ok ⟨200, threeSitesBody r.offset⟩

/-- The pages of `threeSites`. -/
def threeSitesPage (i : Int) (id : String) : listResponse (List site) :=
  ⟨i, 1, 1, 3, [⟨id⟩]⟩

/-- JSON decoding of the bodies of `threeSites`. -/
def decodeThreeSites (body : String) : Except String (listResponse (List site)) :=
  if body = threeSitesBody 0 then .ok (threeSitesPage 0 "s0")
  else if body = threeSitesBody 1 then .ok (threeSitesPage 1 "s1")
  else if body = threeSitesBody 2 then .ok (threeSitesPage 2 "s2")
  else if body = threeSitesBody 3 then .ok ⟨3, 1, 0, 3, []⟩
  else .error "unexpected end of JSON input"

/-- An upstream that serves the first page of `threeSites` and then fails. -/
def failsOnSecond : List Request → Request → Except String Response :=
  fun hist r => if hist = [] then threeSites hist r else .error "connection refused"

/-- The body an upstream sends when it ignores the `offset` parameter and
always returns the first page of two. -/
def firstPageBody : String :=
  "\x7b\"offset\":0,\"limit\":1,\"count\":1,\"totalCount\":2,\"data\":[\x7b\"id\":\"s0\"\x7d]\x7d"

/-- An upstream that ignores the `offset` parameter. -/
def ignoresOffset : List Request → Request → Except String Response :=
  fun _ _ => .ok ⟨200, firstPageBody⟩

/-- JSON decoding of `firstPageBody`. -/
def decodeFirstPage (body : String) : Except String (listResponse (List site)) :=
  if body = firstPageBody then .ok ⟨0, 1, 1, 2, [⟨"s0"⟩]⟩
  else .error "unexpected end of JSON input"

/-- The body of a page that holds nothing although one element is announced. -/
def emptyPageBody : String :=
  "\x7b\"offset\":0,\"limit\":25,\"count\":0,\"totalCount\":1,\"data\":[]\x7d"

/-- An upstream whose every page is empty and announces one element. -/
def neverAdvances : List Request → Request → Except String Response :=
  fun _ _ => .ok ⟨200, emptyPageBody⟩

/-- JSON decoding of `emptyPageBody`. -/
def decodeEmptyPage (body : String) : Except String (listResponse (List site)) :=
  if body = emptyPageBody then .ok ⟨0, 25, 0, 1, []⟩
  else .error "unexpected end of JSON input"

/-- Bodies of an upstream that echoes the offset asked and announces two
elements; the page at offset 1 has the largest count a Go `int` holds. -/
def hugeCountBody : Int → String
  | 0 => "\x7b\"offset\":0,\"limit\":1,\"count\":1,\"totalCount\":2,\"data\":[\x7b\"id\":\"s0\"\x7d]\x7d"
  | 1 => "\x7b\"offset\":1,\"limit\":1,\"count\":9223372036854775807,\"totalCount\":2,\"data\":[\x7b\"id\":\"s1\"\x7d]\x7d"
  | _ => "\x7b\"offset\":-9223372036854775808,\"limit\":1,\"count\":1,\"totalCount\":2,\"data\":[]\x7d"

/-- An upstream that answers with `hugeCountBody`. -/
def hugeCount : List Request → Request → Except String Response :=
  fun _ r => .ok ⟨200, hugeCountBody r.offset⟩

/-- JSON decoding of the bodies of `hugeCount`. -/
def decodeHugeCount (body : String) : Except String (listResponse (List site)) :=
  if body = hugeCountBody 0 then .ok ⟨0, 1, 1, 2, [⟨"s0"⟩]⟩
  else if body = hugeCountBody 1 then .ok ⟨1, 1, 9223372036854775807, 2, [⟨"s1"⟩]⟩
  else if body = hugeCountBody 2 then .ok ⟨-9223372036854775808, 1, 1, 2, []⟩
  else .error "unexpected end of JSON input"

/-- The body of an error document of the API. -/
def unauthorizedBody : String :=
  "\x7b\"statusCode\":401,\"statusName\":\"UNAUTHORIZED\",\"message\":\"Unauthorized\"\x7d"

/-- An upstream that rejects every request with status 401 and a JSON error
document. -/
def unauthorized : List Request → Request → Except String Response :=
  fun _ _ => .ok ⟨401, unauthorizedBody⟩

/-- JSON decoding of `unauthorizedBody` into a `listResponse`: the object has
none of the fields of the struct, so every field keeps its zero value and the
decoder reports no error. -/
def decodeUnauthorized (body : String) : Except String (listResponse (List site)) :=
  if body = unauthorizedBody then .ok ⟨0, 0, 0, 0, []⟩
  else .error "unexpected end of JSON input"

/-- An upstream that answers every request with status 502 and an HTML page. -/
def badGateway : List Request → Request → Except String Response :=
  fun _ _ => .ok ⟨502, "<html><body>502 Bad Gateway</body></html>"⟩

/-- JSON decoding of the body of `badGateway`. -/
def decodeBadGateway (_ : String) : Except String (listResponse (List site)) :=
  .error "invalid character < looking for beginning of value"

/-- Body of an empty list. -/
def emptyListBody : String :=
  "\x7b\"offset\":0,\"limit\":25,\"count\":0,\"totalCount\":0,\"data\":[]\x7d"

/-- URL of the sites list in the examples. -/
def exSitesURL : String := "https://192.168.0.1/proxy/network/integration/v1/sites"

/-- URL of the devices list of site `s1` in the examples. -/
def exDevicesURL : String := "https://192.168.0.1/proxy/network/integration/v1/sites/s1/devices"

/-- Body of a sites list that holds the single site `s1`. -/
def homeSitesBody : String :=
  "\x7b\"offset\":0,\"limit\":25,\"count\":1,\"totalCount\":1,\"data\":[\x7b\"id\":\"s1\"\x7d]\x7d"

/-- Body of a devices list of two devices. -/
def homeDevicesBody : String :=
  "\x7b\"offset\":0,\"limit\":25,\"count\":2,\"totalCount\":2,\"data\":[\x7b\"id\":\"d1\",\"name\":\"AP1\",\"model\":\"U6\",\"ipAddress\":\"10.0.0.2\"\x7d,\x7b\"id\":\"d2\",\"name\":\"SW1\",\"model\":\"USW\",\"ipAddress\":\"10.0.0.3\"\x7d]\x7d"

/-- The first device of the examples. -/
def exDevice1 : device := ⟨"d1", "AP1", "U6", "", "", "10.0.0.2"⟩

/-- The second device of the examples. -/
def exDevice2 : device := ⟨"d2", "SW1", "USW", "", "", "10.0.0.3"⟩

/-- An upstream with one site, `s1`, that has two devices. -/
def home : List Request → Request → Except String Response :=
  fun _ r =>
    if r.url = exSitesURL then .ok ⟨200, homeSitesBody⟩
    else if r.url = exDevicesURL then .ok ⟨200, homeDevicesBody⟩
    else .error "no route to host"

/-- Body of the first page of a sites list of two sites, one per page. -/
def twoSitesBody : String :=
  "\x7b\"offset\":0,\"limit\":1,\"count\":1,\"totalCount\":2,\"data\":[\x7b\"id\":\"s1\"\x7d]\x7d"

/-- JSON decoding of the sites bodies of the examples. -/
def decodeSites (body : String) : Except String (listResponse (List site)) :=
  if body = homeSitesBody then .ok ⟨0, 25, 1, 1, [⟨"s1"⟩]⟩
  else if body = twoSitesBody then .ok ⟨0, 1, 1, 2, [⟨"s1"⟩]⟩
  else if body = emptyListBody then .ok ⟨0, 25, 0, 0, []⟩
  else .error "unexpected end of JSON input"

/-- JSON decoding of the devices bodies of the examples. -/
def decodeDevices (body : String) : Except String (listResponse (List device)) :=
  if body = homeDevicesBody then .ok ⟨0, 25, 2, 2, [exDevice1, exDevice2]⟩
  else if body = emptyListBody then .ok ⟨0, 25, 0, 0, []⟩
  else .error "unexpected end of JSON input"

/-- An upstream with one site, `s1`, that has no device. -/
def siteWithoutDevices : List Request → Request → Except String Response :=
  fun _ r =>
    if r.url = exSitesURL then .ok ⟨200, homeSitesBody⟩
    else if r.url = exDevicesURL then .ok ⟨200, emptyListBody⟩
    else .error "no route to host"

/-- An upstream with no site at all. -/
def noSites : List Request → Request → Except String Response :=
  fun _ _ => .ok ⟨200, emptyListBody⟩

/-- An upstream with two sites, one per page: the first sites page and the
devices of its site are served, the second sites page is refused. -/
def secondSitesPageFails : List Request → Request → Except String Response :=
  fun _ r =>
    if r.url = exSitesURL then
      if r.offset = 0 then .ok ⟨200, twoSitesBody⟩ else .error "connection refused"
    else if r.url = exDevicesURL then .ok ⟨200, homeDevicesBody⟩
    else .error "no route to host"

/-- An upstream that refuses every connection. -/
def refusesAll : List Request → Request → Except String Response :=
  fun _ _ => .error "connection refused"

/-! ## Theorems: one iteration of `GetList` -/

theorem yieldData_collect {T : Type} (xs : List T) (s : Run (List (T × Option Err))) :
    yieldData collect xs s = .ok (true, ⟨s.calls, s.user ++ okPairs xs⟩) := by
  induction xs generalizing s with
  | nil => simp [yieldData, okPairs]
  | cons x xs ih => simp [yieldData, collect, ih, okPairs]

section GetListLemmas

variable {T κ : Type} [Inhabited T] (env : Env) (client : unifi)
  (decode : String → Except String (listResponse (List T))) (u : String)

theorem loop_parse_error (y : Yield T κ) (fuel : Nat) (off : Int) (s : Run κ) (text : String)
    (hparse : env.urlParseErr u = some text) :
    GetList.loop env client decode u y (fuel + 1) off s =
      match y default (some (.parse text)) s with
      | .error s1 => .error s1
      | .ok (_, s1) => .ok s1 := by
  simp only [GetList.loop, hparse]

theorem loop_fetch_error (y : Yield T κ) (fuel : Nat) (off : Int) (s : Run κ) (e : Err)
    (hparse : env.urlParseErr u = none)
    (h : GetJSON env client decode (s.calls.map Call.req) ⟨u, off⟩ = .error e) :
    GetList.loop env client decode u y (fuel + 1) off s =
      match y default (some e) (s.log ⟨u, off⟩ (some e)) with
      | .error s1 => .error s1
      | .ok (_, s1) => .ok s1 := by
  simp only [GetList.loop, hparse, h]

theorem loop_fetch_ok (y : Yield T κ) (fuel : Nat) (off : Int) (s : Run κ)
    (p : listResponse (List T)) (hparse : env.urlParseErr u = none)
    (h : GetJSON env client decode (s.calls.map Call.req) ⟨u, off⟩ = .ok p) :
    GetList.loop env client decode u y (fuel + 1) off s =
      match yieldData y p.Data (s.log ⟨u, off⟩ none) with
      | .error s1 => .error s1
      | .ok (false, s1) => .ok s1
      | .ok (true, s1) =>
        if wrapInt (p.Offset + p.Count) ≥ p.TotalCount then .ok s1
        else GetList.loop env client decode u y fuel (wrapInt (p.Offset + p.Count)) s1 := by
  simp only [GetList.loop, hparse, h]

/-- One iteration of the loop for a consumer that keeps pulling, on a page
that was fetched without error. -/
theorem loop_collect_ok (fuel : Nat) (off : Int) (s : Run (List (T × Option Err)))
    (p : listResponse (List T)) (hparse : env.urlParseErr u = none)
    (h : GetJSON env client decode (s.calls.map Call.req) ⟨u, off⟩ = .ok p) :
    GetList.loop env client decode u collect (fuel + 1) off s =
      if wrapInt (p.Offset + p.Count) ≥ p.TotalCount then
        .ok ⟨s.calls ++ [⟨⟨u, off⟩, none⟩], s.user ++ okPairs p.Data⟩
      else GetList.loop env client decode u collect fuel (wrapInt (p.Offset + p.Count))
        ⟨s.calls ++ [⟨⟨u, off⟩, none⟩], s.user ++ okPairs p.Data⟩ := by
  rw [loop_fetch_ok env client decode u collect fuel off s p hparse h, yieldData_collect]
  rfl

theorem loop_collect_error (fuel : Nat) (off : Int) (s : Run (List (T × Option Err)))
    (e : Err) (hparse : env.urlParseErr u = none)
    (h : GetJSON env client decode (s.calls.map Call.req) ⟨u, off⟩ = .error e) :
    GetList.loop env client decode u collect (fuel + 1) off s =
      .ok ⟨s.calls ++ [⟨⟨u, off⟩, some e⟩], s.user ++ [(default, some e)]⟩ := by
  rw [loop_fetch_error env client decode u collect fuel off s e hparse h]
  rfl

/-- While the pages served do not meet the termination test, the loop goes
through them one request each, yielding their elements in order. -/
theorem loop_collect_serves (ps : List (listResponse (List T))) (fuel : Nat) (off : Int)
    (s : Run (List (T × Option Err))) (hparse : env.urlParseErr u = none)
    (hserve : Serves (GetJSON env client decode) u (s.calls.map Call.req) off ps)
    (hgo : ∀ p ∈ ps, ¬ wrapInt (p.Offset + p.Count) ≥ p.TotalCount) :
    GetList.loop env client decode u collect (ps.length + fuel) off s =
      GetList.loop env client decode u collect fuel (cursorAfter off ps)
        ⟨s.calls ++ okCalls (requestsFor u off ps), s.user ++ okPairs (flatten ps)⟩ := by
  induction ps generalizing off s with
  | nil => simp [cursorAfter, requestsFor, flatten, okPairs, okCalls]
  | cons p ps ih =>
    obtain ⟨h1, h2⟩ := hserve
    have hp := hgo p (List.mem_cons_self _ _)
    rw [show (p :: ps).length + fuel = (ps.length + fuel) + 1 by simp; omega]
    rw [loop_collect_ok env client decode u _ off s p hparse h1, if_neg hp]
    rw [ih]
    · simp [cursorAfter, requestsFor, flatten, okPairs, okCalls]
    · simpa using h2
    · intro q hq; exact hgo q (List.mem_cons_of_mem _ hq)

end GetListLemmas

/-! ## Theorems: arithmetic of the cursor -/

theorem wrapInt_of_isInt (x : Int) (h : isInt x) : wrapInt x = x := by
  unfold isInt at h
  unfold wrapInt
  omega

theorem isInt_wrapInt (x : Int) : isInt (wrapInt x) := by
  unfold isInt wrapInt
  omega

theorem offsetsFrom_of_sums {T : Type} (ps : List (listResponse (List T))) (off : Int)
    (h : ∀ (i : Nat) (hi : i < ps.length),
      (ps.get ⟨i, hi⟩).Offset = off + ((ps.take i).map (fun p => p.Count)).sum) :
    OffsetsFrom off ps := by
  induction ps generalizing off with
  | nil => trivial
  | cons p ps ih =>
    refine ⟨by simpa using h 0 (by simp), ih _ ?_⟩
    intro i hi
    have := h (i + 1) (by simpa using hi)
    simp only [List.get_eq_getElem, List.getElem_cons_succ, List.take_succ_cons, List.map_cons,
      List.sum_cons] at this
    simp only [List.get_eq_getElem]
    omega

theorem counts_nonneg {T : Type} (ps : List (listResponse (List T)))
    (hlen : ∀ p ∈ ps, (p.Data.length : Int) = p.Count) :
    0 ≤ (ps.map (fun p => p.Count)).sum := by
  induction ps with
  | nil => simp
  | cons p ps ih =>
    have h1 := hlen p (List.mem_cons_self _ _)
    have h2 := ih (fun q hq => hlen q (List.mem_cons_of_mem _ hq))
    simp only [List.map_cons, List.sum_cons]
    omega

theorem flatten_eq_nil_of_counts {T : Type} (ps : List (listResponse (List T)))
    (hlen : ∀ p ∈ ps, (p.Data.length : Int) = p.Count)
    (hsum : (ps.map (fun p => p.Count)).sum ≤ 0) : flatten ps = [] := by
  induction ps with
  | nil => rfl
  | cons p ps ih =>
    have h1 := hlen p (List.mem_cons_self _ _)
    have hrest : ∀ q ∈ ps, (q.Data.length : Int) = q.Count :=
      fun q hq => hlen q (List.mem_cons_of_mem _ hq)
    have h2 := counts_nonneg ps hrest
    simp only [List.map_cons, List.sum_cons] at hsum
    have h3 : p.Data.length = 0 := by omega
    have h4 : p.Data = [] := List.length_eq_zero.mp h3
    have h5 := ih hrest (by omega)
    simp only [flatten] at h5 ⊢
    simp [List.flatMap_cons, h4, h5]

theorem flatten_length {T : Type} (ps : List (listResponse (List T)))
    (hlen : ∀ p ∈ ps, (p.Data.length : Int) = p.Count) :
    ((flatten ps).length : Int) = (ps.map (fun p => p.Count)).sum := by
  induction ps with
  | nil => rfl
  | cons p ps ih =>
    have h1 := hlen p (List.mem_cons_self _ _)
    have h2 := ih (fun q hq => hlen q (List.mem_cons_of_mem _ hq))
    simp only [flatten] at h2 ⊢
    simp only [List.flatMap_cons, List.length_append, List.map_cons, List.sum_cons]
    push_cast
    omega

/-! ## Theorems: complete listings -/

section Listing

variable {T : Type} [Inhabited T] (env : Env) (client : unifi)
  (decode : String → Except String (listResponse (List T))) (u : String)

theorem loop_collect_full (ps : List (listResponse (List T))) (total : Int) (fuel : Nat)
    (off : Int) (s : Run (List (T × Option Err))) (hne : ps ≠ [])
    (hparse : env.urlParseErr u = none)
    (hserve : Serves (GetJSON env client decode) u (s.calls.map Call.req) off ps)
    (htot : ∀ p ∈ ps, p.TotalCount = total)
    (hsum : off + (ps.map (fun p => p.Count)).sum = total)
    (h0 : 0 ≤ off) (hint : total < 9223372036854775808)
    (hlen : ∀ p ∈ ps, (p.Data.length : Int) = p.Count)
    (hchain : OffsetsFrom off ps) (hfuel : ps.length ≤ fuel) :
    ∃ calls, GetList.loop env client decode u collect fuel off s =
      .ok ⟨calls, s.user ++ okPairs (flatten ps)⟩ := by
  induction ps generalizing off s fuel with
  | nil => exact absurd rfl hne
  | cons p ps ih =>
    obtain ⟨h1, h2⟩ := hserve
    obtain ⟨hoff, hchain⟩ := hchain
    have hp := hlen p (List.mem_cons_self _ _)
    have hrest : ∀ q ∈ ps, (q.Data.length : Int) = q.Count :=
      fun q hq => hlen q (List.mem_cons_of_mem _ hq)
    have hnn := counts_nonneg ps hrest
    have htp := htot p (List.mem_cons_self _ _)
    simp only [List.map_cons, List.sum_cons] at hsum
    have hw : wrapInt (p.Offset + p.Count) = off + p.Count := by
      rw [hoff]
      apply wrapInt_of_isInt
      unfold isInt
      omega
    obtain ⟨f, rfl⟩ : ∃ f, fuel = f + 1 := ⟨fuel - 1, by simp at hfuel; omega⟩
    rw [loop_collect_ok env client decode u f off s p hparse h1, hw, htp]
    by_cases hend : off + p.Count ≥ total
    · rw [if_pos hend]
      have hnil := flatten_eq_nil_of_counts ps hrest (by omega)
      refine ⟨s.calls ++ [⟨⟨u, off⟩, none⟩], ?_⟩
      simp only [flatten] at hnil ⊢
      simp [List.flatMap_cons, hnil]
    · rw [if_neg hend]
      have hne2 : ps ≠ [] := by
        rintro rfl
        simp at hsum
        omega
      obtain ⟨calls, hc⟩ := ih f (off + p.Count)
        ⟨s.calls ++ [⟨⟨u, off⟩, none⟩], s.user ++ okPairs p.Data⟩ hne2
        (by rw [hw] at h2; simpa using h2)
        (fun q hq => htot q (List.mem_cons_of_mem _ hq)) (by omega) (by omega) hrest hchain
        (by simp at hfuel; omega)
      refine ⟨calls, ?_⟩
      rw [hc]
      simp [flatten, okPairs, List.flatMap_cons]

theorem pull_full (ps : List (listResponse (List T))) (total : Int)
    (hparse : env.urlParseErr u = none)
    (h : FullListing (GetJSON env client decode) u ps total) (fuel : Nat)
    (hfuel : ps.length ≤ fuel) :
    ∃ calls, pull env client decode u fuel = .ok ⟨calls, okPairs (flatten ps)⟩ := by
  have hchain : OffsetsFrom 0 ps := offsetsFrom_of_sums ps 0 (by simpa using h.offsets)
  have := loop_collect_full env client decode u ps total fuel 0 ⟨[], []⟩ h.nonempty hparse
    (by simpa using h.serves) h.total_eq (by simpa using h.sum_eq.symm) (le_refl _)
    h.total_int.2 h.data_len hchain hfuel
  simpa [pull, GetList] using this

end Listing

theorem requestsFor_length {T : Type} (u : String) (ps : List (listResponse (List T)))
    (off : Int) : (requestsFor u off ps).length = ps.length := by
  induction ps generalizing off with
  | nil => rfl
  | cons p ps ih => simp [requestsFor, ih]

/-! ## Theorems: the pagination contract -/

/-- **C1.** When the upstream lists a collection in full over the pages
`p_1 .. p_n` (see `FullListing`: every page reports `totalCount = Σ count_i`,
holds `count_i` elements and has the sum of the earlier counts as its offset)
and `u` parses, `GetList` yields exactly `data(p_1) ++ ... ++ data(p_n)`, each
element paired with a nil error.  That is `totalCount` elements; none when
`totalCount = 0`; and the same sequence for any other way of splitting the
same elements into pages. -/
theorem getList_yields_every_element_once {T : Type} [Inhabited T] (env : Env) (client : unifi)
    (decode : String → Except String (listResponse (List T))) (u : String)
    (ps : List (listResponse (List T))) (total : Int)
    (hparse : env.urlParseErr u = none)
    (h : FullListing (GetJSON env client decode) u ps total) :
    ∀ fuel, ps.length ≤ fuel →
      (∃ calls, pull env client decode u fuel = .ok ⟨calls, okPairs (flatten ps)⟩) ∧
      ((flatten ps).length : Int) = total ∧
      (total = 0 → flatten ps = []) ∧
      (∀ (env2 : Env) (client2 : unifi)
          (decode2 : String → Except String (listResponse (List T))) (u2 : String)
          (qs : List (listResponse (List T))),
          env2.urlParseErr u2 = none →
          FullListing (GetJSON env2 client2 decode2) u2 qs total →
          flatten qs = flatten ps →
          ∀ fuel2, qs.length ≤ fuel2 →
            ∃ calls2, pull env2 client2 decode2 u2 fuel2 = .ok ⟨calls2, okPairs (flatten ps)⟩) := by
  intro fuel hfuel
  have hlen : ((flatten ps).length : Int) = total := by
    rw [flatten_length ps h.data_len, h.sum_eq]
  refine ⟨pull_full env client decode u ps total hparse h fuel hfuel, hlen, ?_, ?_⟩
  · intro h0
    rw [h0] at hlen
    exact List.length_eq_zero.mp (by exact_mod_cast hlen)
  · intro env2 client2 decode2 u2 qs hparse2 h2 heq fuel2 hfuel2
    rw [← heq]
    exact pull_full env2 client2 decode2 u2 qs total hparse2 h2 fuel2 hfuel2

theorem threeSites_fullListing :
    FullListing (GetJSON (envOf threeSites) exClient decodeThreeSites) "sites"
      [threeSitesPage 0 "s0", threeSitesPage 1 "s1", threeSitesPage 2 "s2"] 3 where
  nonempty := by simp
  serves := ⟨rfl, rfl, rfl, trivial⟩
  total_eq := by
    intro p hp
    simp only [List.mem_cons, List.mem_singleton, List.not_mem_nil, or_false] at hp
    rcases hp with rfl | rfl | rfl <;> rfl
  sum_eq := by rfl
  total_int := by unfold isInt; omega
  data_len := by
    intro p hp
    simp only [List.mem_cons, List.mem_singleton, List.not_mem_nil, or_false] at hp
    rcases hp with rfl | rfl | rfl <;> rfl
  offsets := by
    intro i hi
    match i, hi with
    | 0, _ => rfl
    | 1, _ => rfl
    | 2, _ => rfl

/-- Three sites served one per page are yielded in order, each once. -/
theorem getList_yields_every_element_once_witness :
    ∃ calls, pull (envOf threeSites) exClient decodeThreeSites "sites" 3 =
      .ok ⟨calls, [(⟨"s0"⟩, none), (⟨"s1"⟩, none), (⟨"s2"⟩, none)]⟩ :=
  (getList_yields_every_element_once (envOf threeSites) exClient decodeThreeSites "sites"
    [threeSitesPage 0 "s0", threeSitesPage 1 "s1", threeSitesPage 2 "s2"] 3 rfl
    threeSites_fullListing 3 (le_refl _)).1

/-- **C2.** For every `k ≥ 1` (here `k = ps.length + 1`): when the page requests
`1 .. k-1` are answered with the pages `ps`, none of which meets the
termination test, and the fetch of page `k` returns the error `e`, `GetList`
yields the elements of `ps` in order with nil error, then the single pair of
the zero value of `T` and `e`, and ends, having issued exactly `k` page
requests. -/
theorem getList_stops_at_first_error {T : Type} [Inhabited T] (env : Env) (client : unifi)
    (decode : String → Except String (listResponse (List T))) (u : String)
    (ps : List (listResponse (List T))) (e : Err)
    (hparse : env.urlParseErr u = none)
    (hserve : Serves (GetJSON env client decode) u [] 0 ps)
    (hgo : ∀ p ∈ ps, ¬ wrapInt (p.Offset + p.Count) ≥ p.TotalCount)
    (herr : GetJSON env client decode (requestsFor u 0 ps) ⟨u, cursorAfter 0 ps⟩ = .error e) :
    ∀ fuel, ps.length + 1 ≤ fuel →
      ∃ calls, pull env client decode u fuel =
          .ok ⟨calls, okPairs (flatten ps) ++ [(default, some e)]⟩ ∧
        calls.length = ps.length + 1 ∧
        calls.map Call.req = requestsFor u 0 ps ++ [⟨u, cursorAfter 0 ps⟩] := by
  intro fuel hfuel
  obtain ⟨f, rfl⟩ : ∃ f, fuel = ps.length + (f + 1) := ⟨fuel - ps.length - 1, by omega⟩
  refine ⟨okCalls (requestsFor u 0 ps) ++ [⟨⟨u, cursorAfter 0 ps⟩, some e⟩], ?_, ?_, ?_⟩
  · unfold pull GetList
    rw [loop_collect_serves env client decode u ps (f + 1) 0 ⟨[], []⟩ hparse
      (by simpa using hserve) hgo]
    rw [loop_collect_error env client decode u f _ _ e hparse
      (by simpa [okCalls, Function.comp_def] using herr)]
    simp
  · simp [okCalls, requestsFor_length]
  · simp [okCalls, Function.comp_def]

/-- One page of one site, then a refused connection: one element, one error
pair, two requests. -/
theorem getList_stops_at_first_error_witness :
    ∃ calls, pull (envOf failsOnSecond) exClient decodeThreeSites "sites" 5 =
        .ok ⟨calls, okPairs (flatten [threeSitesPage 0 "s0"]) ++
          [(default, some (.roundTrip "GET" "sites?offset=1" "connection refused"))]⟩ ∧
      calls.length = 1 + 1 ∧
      calls.map Call.req = requestsFor "sites" 0 [threeSitesPage 0 "s0"] ++
        [⟨"sites", cursorAfter 0 [threeSitesPage 0 "s0"]⟩] :=
  getList_stops_at_first_error (envOf failsOnSecond) exClient decodeThreeSites "sites"
    [threeSitesPage 0 "s0"] (.roundTrip "GET" "sites?offset=1" "connection refused") rfl
    ⟨rfl, trivial⟩
    (by intro p hp; simp only [List.mem_singleton] at hp; subst hp; decide)
    (by rfl) 5 (by decide)

/-! ## Theorems: the cursor -/

theorem loop_collect_extends {T : Type} [Inhabited T] (env : Env) (client : unifi)
    (decode : String → Except String (listResponse (List T))) (u : String)
    (fuel : Nat) (off : Int) (s : Run (List (T × Option Err))) :
    ∃ new more, reached (GetList.loop env client decode u collect fuel off s) =
        ⟨s.calls ++ new, s.user ++ more⟩ ∧
      (0 < fuel → env.urlParseErr u = none → ∃ c rest, new = ⟨⟨u, off⟩, c⟩ :: rest) := by
  induction fuel generalizing off s with
  | zero => exact ⟨[], [], by simp [GetList.loop, reached], by simp⟩
  | succ f ih =>
    cases hparse : env.urlParseErr u with
    | some text =>
      refine ⟨[], [(default, some (.parse text))], ?_, by simp⟩
      rw [loop_parse_error env client decode u collect f off s text hparse]
      simp [collect, reached]
    | none =>
      cases hg : GetJSON env client decode (s.calls.map Call.req) ⟨u, off⟩ with
      | error e =>
        refine ⟨[⟨⟨u, off⟩, some e⟩], [(default, some e)], ?_, fun _ _ => ⟨_, _, rfl⟩⟩
        rw [loop_collect_error env client decode u f off s e hparse hg]
        rfl
      | ok p =>
        rw [loop_collect_ok env client decode u f off s p hparse hg]
        by_cases hend : wrapInt (p.Offset + p.Count) ≥ p.TotalCount
        · rw [if_pos hend]
          exact ⟨[⟨⟨u, off⟩, none⟩], okPairs p.Data, rfl, fun _ _ => ⟨_, _, rfl⟩⟩
        · rw [if_neg hend]
          obtain ⟨new, more, h1, _⟩ := ih (wrapInt (p.Offset + p.Count))
            ⟨s.calls ++ [⟨⟨u, off⟩, none⟩], s.user ++ okPairs p.Data⟩
          refine ⟨⟨⟨u, off⟩, none⟩ :: new, okPairs p.Data ++ more, ?_, fun _ _ => ⟨_, _, rfl⟩⟩
          rw [h1]
          simp

/-- **C8, as amended.** The first page request carries offset 0.  After a page
decoded without error, every element of its data is yielded; the sequence ends
after that page exactly when the page's own `offset` field plus its `count`
field (Go `int` addition) is at least its `totalCount`; otherwise the next page
request carries that sum as its offset, whatever the length of the data and
whatever offset had been requested. -/
theorem getList_cursor_follows_response {T : Type} [Inhabited T] (env : Env) (client : unifi)
    (decode : String → Except String (listResponse (List T))) (u : String)
    (hparse : env.urlParseErr u = none) :
    (∀ fuel, ∃ c rest,
      (reached (pull env client decode u (fuel + 1))).calls = ⟨⟨u, 0⟩, c⟩ :: rest) ∧
    (∀ (fuel : Nat) (off : Int) (s : Run (List (T × Option Err))) (p : listResponse (List T)),
      GetJSON env client decode (s.calls.map Call.req) ⟨u, off⟩ = .ok p →
      (wrapInt (p.Offset + p.Count) ≥ p.TotalCount →
        GetList.loop env client decode u collect (fuel + 1) off s =
          .ok ⟨s.calls ++ [⟨⟨u, off⟩, none⟩], s.user ++ okPairs p.Data⟩) ∧
      (¬ wrapInt (p.Offset + p.Count) ≥ p.TotalCount →
        ∃ c rest more, reached (GetList.loop env client decode u collect (fuel + 2) off s) =
          ⟨s.calls ++ ⟨⟨u, off⟩, none⟩ :: ⟨⟨u, wrapInt (p.Offset + p.Count)⟩, c⟩ :: rest,
            s.user ++ okPairs p.Data ++ more⟩)) := by
  constructor
  · intro fuel
    obtain ⟨new, more, h1, h2⟩ := loop_collect_extends env client decode u (fuel + 1) 0 ⟨[], []⟩
    obtain ⟨c, rest, rfl⟩ := h2 (Nat.succ_pos _) hparse
    exact ⟨c, rest, by simp [pull, GetList, h1]⟩
  · intro fuel off s p hg
    constructor
    · intro hend
      rw [loop_collect_ok env client decode u fuel off s p hparse hg, if_pos hend]
    · intro hend
      rw [loop_collect_ok env client decode u (fuel + 1) off s p hparse hg, if_neg hend]
      obtain ⟨new, more, h1, h2⟩ := loop_collect_extends env client decode u (fuel + 1)
        (wrapInt (p.Offset + p.Count)) ⟨s.calls ++ [⟨⟨u, off⟩, none⟩], s.user ++ okPairs p.Data⟩
      obtain ⟨c, rest, rfl⟩ := h2 (Nat.succ_pos _) hparse
      exact ⟨c, rest, more, by simp [h1]⟩

/-- The first request to `threeSites` carries offset 0. -/
theorem getList_cursor_follows_response_witness :
    ∃ c rest,
      (reached (pull (envOf threeSites) exClient decodeThreeSites "sites" (0 + 1))).calls =
        ⟨⟨"sites", 0⟩, c⟩ :: rest :=
  (getList_cursor_follows_response (envOf threeSites) exClient decodeThreeSites "sites" rfl).1 0

/-- **C8, as stated, fails.** Against an upstream that ignores the offset
parameter and returns the page `offset = 0, count = 1, totalCount = 2` every
time, the second request carries offset 1 and so does the third: the cursor is
rebuilt from the `offset` field of the response (`0 + 1`), not from the offset
that was requested (`1 + 1 = 2`), and the sequence does not end after the
second page although the offset requested for it plus its count reaches
`totalCount`. -/
theorem getList_cursor_not_own_counterexample :
    pull (envOf ignoresOffset) exClient decodeFirstPage "sites" 3 =
        .error ⟨[⟨⟨"sites", 0⟩, none⟩, ⟨⟨"sites", 1⟩, none⟩, ⟨⟨"sites", 1⟩, none⟩],
          [(⟨"s0"⟩, none), (⟨"s0"⟩, none), (⟨"s0"⟩, none)]⟩ ∧
      GetJSON (envOf ignoresOffset) exClient decodeFirstPage [⟨"sites", 0⟩] ⟨"sites", 1⟩ =
        .ok ⟨0, 1, 1, 2, [⟨"s0"⟩]⟩ ∧
      (1 : Int) + 1 ≥ 2 ∧ (1 : Int) ≠ 1 + 1 :=
  ⟨rfl, rfl, by decide, by decide⟩

/-! ## Theorems: termination -/

theorem loop_collect_progress {T : Type} [Inhabited T] (env : Env) (client : unifi)
    (decode : String → Except String (listResponse (List T))) (u : String) (total : Int)
    (hparse : env.urlParseErr u = none)
    (hup : ∀ (hist : List Request) (off : Int), 0 ≤ off → off < max 1 total →
      ∃ p, GetJSON env client decode hist ⟨u, off⟩ = .ok p ∧ p.TotalCount = total ∧
        (wrapInt (p.Offset + p.Count) < total → off < wrapInt (p.Offset + p.Count)))
    (n : Nat) (off : Int) (s : Run (List (T × Option Err))) (fuel : Nat)
    (h0 : 0 ≤ off) (hlt : off < max 1 total) (hn : total - off ≤ n) (h1 : 1 ≤ n)
    (hfuel : n ≤ fuel) :
    ∃ r rest, GetList.loop env client decode u collect fuel off s = .ok r ∧
      r.calls.map (fun c => c.req.offset) = s.calls.map (fun c => c.req.offset) ++ off :: rest ∧
      List.Chain (fun a b => a < b) off rest ∧ rest.length + 1 ≤ n := by
  induction n generalizing off s fuel with
  | zero => omega
  | succ n ih =>
    obtain ⟨f, rfl⟩ : ∃ f, fuel = f + 1 := ⟨fuel - 1, by omega⟩
    obtain ⟨p, hg, htot, hprog⟩ := hup (s.calls.map Call.req) off h0 hlt
    rw [loop_collect_ok env client decode u f off s p hparse hg, htot]
    by_cases hend : wrapInt (p.Offset + p.Count) ≥ total
    · rw [if_pos hend]
      exact ⟨_, [], rfl, by simp, List.Chain.nil, by simp⟩
    · rw [if_neg hend]
      have hw := hprog (by omega)
      obtain ⟨r, rest, hr, hcalls, hchain, hlen⟩ := ih (wrapInt (p.Offset + p.Count))
        ⟨s.calls ++ [⟨⟨u, off⟩, none⟩], s.user ++ okPairs p.Data⟩ f (by omega)
        (by omega) (by omega) (by omega) (by omega)
      refine ⟨r, wrapInt (p.Offset + p.Count) :: rest, hr, ?_, List.Chain.cons hw hchain, ?_⟩
      · rw [hcalls]; simp
      · simp only [List.length_cons]; omega

/-- **C9, as amended.** When the upstream answers every page request with
cursor between 0 and `totalCount` successfully, reports the same `totalCount`
on every page, and every page that does not end the sequence moves the cursor
forward (its `offset + count`, in Go `int` arithmetic, exceeds the offset that
was requested), a consumer that keeps pulling receives a finite sequence:
`GetList` issues at most `max 1 totalCount` page requests and then ends. -/
theorem getList_terminates_when_cursor_advances {T : Type} [Inhabited T] (env : Env)
    (client : unifi) (decode : String → Except String (listResponse (List T))) (u : String)
    (total : Int) (hparse : env.urlParseErr u = none)
    (hup : ∀ (hist : List Request) (off : Int), 0 ≤ off → off < max 1 total →
      ∃ p, GetJSON env client decode hist ⟨u, off⟩ = .ok p ∧ p.TotalCount = total ∧
        (wrapInt (p.Offset + p.Count) < total → off < wrapInt (p.Offset + p.Count))) :
    ∀ fuel, (max 1 total).toNat ≤ fuel →
      ∃ r, pull env client decode u fuel = .ok r ∧ r.calls.length ≤ (max 1 total).toNat := by
  intro fuel hfuel
  obtain ⟨r, rest, hr, hcalls, _, hlen⟩ := loop_collect_progress env client decode u total hparse
    hup (max 1 total).toNat 0 ⟨[], []⟩ fuel (le_refl _) (by omega) (by omega) (by omega) hfuel
  refine ⟨r, hr, ?_⟩
  have := congrArg List.length hcalls
  simp only [List.length_map, List.map_nil, List.nil_append, List.length_cons] at this
  omega

theorem threeSites_answers (hist : List Request) (off : Int) (h0 : 0 ≤ off)
    (h3 : off < max 1 3) :
    ∃ p, GetJSON (envOf threeSites) exClient decodeThreeSites hist ⟨"sites", off⟩ = .ok p ∧
      p.Offset = off ∧ p.TotalCount = 3 ∧ p.Count = 1 := by
  have h : off = 0 ∨ off = 1 ∨ off = 2 := by omega
  rcases h with rfl | rfl | rfl
  · exact ⟨threeSitesPage 0 "s0", rfl, rfl, rfl, rfl⟩
  · exact ⟨threeSitesPage 1 "s1", rfl, rfl, rfl, rfl⟩
  · exact ⟨threeSitesPage 2 "s2", rfl, rfl, rfl, rfl⟩

/-- The listing of `threeSites` ends within three requests. -/
theorem getList_terminates_when_cursor_advances_witness :
    ∃ r, pull (envOf threeSites) exClient decodeThreeSites "sites" 3 = .ok r ∧
      r.calls.length ≤ (max 1 (3 : Int)).toNat :=
  getList_terminates_when_cursor_advances (envOf threeSites) exClient decodeThreeSites "sites" 3
    rfl (by
      intro hist off h0 h3
      obtain ⟨p, hg, ho, ht, hc⟩ := threeSites_answers hist off h0 h3
      refine ⟨p, hg, ht, ?_⟩
      intro _
      rw [ho, hc, wrapInt_of_isInt _ (by unfold isInt; omega)]
      omega) 3 (by decide)

/-- **C9, as stated, fails.** The upstream `neverAdvances` answers every page
request successfully and reports `totalCount = 1` on every page, yet its pages
have `count = 0`: whatever the fuel, `GetList` has not ended when the fuel is
used up, and it has issued one page request per unit of fuel. -/
theorem getList_never_ends_counterexample :
    (∀ (hist : List Request) (off : Int),
      GetJSON (envOf neverAdvances) exClient decodeEmptyPage hist ⟨"sites", off⟩ =
        .ok ⟨0, 25, 0, 1, []⟩) ∧
    (∀ fuel, ∃ s, pull (envOf neverAdvances) exClient decodeEmptyPage "sites" fuel = .error s ∧
      s.calls.length = fuel) := by
  refine ⟨fun _ _ => rfl, ?_⟩
  have key : ∀ (fuel : Nat) (s : Run (List (site × Option Err))),
      ∃ s2, GetList.loop (envOf neverAdvances) exClient decodeEmptyPage "sites" collect fuel 0 s
          = .error s2 ∧ s2.calls.length = s.calls.length + fuel := by
    intro fuel
    induction fuel with
    | zero => intro s; exact ⟨s, rfl, rfl⟩
    | succ f ih =>
      intro s
      rw [loop_collect_ok (envOf neverAdvances) exClient decodeEmptyPage "sites" f 0 s
        ⟨0, 25, 0, 1, []⟩ rfl rfl]
      rw [if_neg (by decide)]
      obtain ⟨s2, h1, h2⟩ := ih ⟨s.calls ++ [⟨⟨"sites", 0⟩, none⟩], s.user ++ okPairs []⟩
      refine ⟨s2, ?_, ?_⟩
      · exact h1
      · rw [h2]; simp; omega
  intro fuel
  obtain ⟨s2, h1, h2⟩ := key fuel ⟨[], []⟩
  exact ⟨s2, h1, by simpa using h2⟩

/-- **C10, as amended.** When every page response to a request with cursor
between 0 and `T` echoes the offset it was requested with, reports the same
`totalCount = T`, has `count ≥ 1` whenever requested offset + count `< T`, and
that sum does not overflow a Go `int`, then `GetList` (consumer that never
stops, no fetch error) ends after at most `max 1 T` page requests, and the
offsets it requests start at 0 and are strictly increasing. -/
theorem getList_bounded_requests {T : Type} [Inhabited T] (env : Env)
    (client : unifi) (decode : String → Except String (listResponse (List T))) (u : String)
    (total : Int) (hparse : env.urlParseErr u = none)
    (hup : ∀ (hist : List Request) (off : Int), 0 ≤ off → off < max 1 total →
      ∃ p, GetJSON env client decode hist ⟨u, off⟩ = .ok p ∧ p.Offset = off ∧
        p.TotalCount = total ∧ (off + p.Count < total → 1 ≤ p.Count) ∧
        isInt (off + p.Count)) :
    ∀ fuel, (max 1 total).toNat ≤ fuel →
      ∃ r rest, pull env client decode u fuel = .ok r ∧
        r.calls.length ≤ (max 1 total).toNat ∧
        r.calls.map (fun c => c.req.offset) = 0 :: rest ∧
        List.Sorted (fun a b => a < b) (0 :: rest) := by
  intro fuel hfuel
  have hup2 : ∀ (hist : List Request) (off : Int), 0 ≤ off → off < max 1 total →
      ∃ p, GetJSON env client decode hist ⟨u, off⟩ = .ok p ∧ p.TotalCount = total ∧
        (wrapInt (p.Offset + p.Count) < total → off < wrapInt (p.Offset + p.Count)) := by
    intro hist off h0 hlt
    obtain ⟨p, hg, ho, ht, hc, hi⟩ := hup hist off h0 hlt
    refine ⟨p, hg, ht, ?_⟩
    rw [ho, wrapInt_of_isInt _ hi]
    intro h
    have := hc h
    omega
  obtain ⟨r, rest, hr, hcalls, hchain, hlen⟩ := loop_collect_progress env client decode u total
    hparse hup2 (max 1 total).toNat 0 ⟨[], []⟩ fuel (le_refl _) (by omega) (by omega) (by omega)
    hfuel
  refine ⟨r, rest, hr, ?_, by simpa using hcalls, ?_⟩
  · have := congrArg List.length hcalls
    simp only [List.length_map, List.map_nil, List.nil_append, List.length_cons] at this
    omega
  · exact List.chain'_iff_pairwise.mp hchain

/-- The listing of `threeSites` takes at most three requests, at increasing
offsets from 0. -/
theorem getList_bounded_requests_witness :
    ∃ r rest, pull (envOf threeSites) exClient decodeThreeSites "sites" 3 = .ok r ∧
      r.calls.length ≤ (max 1 (3 : Int)).toNat ∧
      r.calls.map (fun c => c.req.offset) = 0 :: rest ∧
      List.Sorted (fun a b => a < b) (0 :: rest) :=
  getList_bounded_requests (envOf threeSites) exClient decodeThreeSites "sites" 3
    rfl (by
      intro hist off h0 h3
      obtain ⟨p, hg, ho, ht, hc⟩ := threeSites_answers hist off h0 h3
      refine ⟨p, hg, ho, ht, ?_, ?_⟩
      · intro _; omega
      · unfold isInt; omega) 3 (by decide)

/-- **C10, as stated, fails.** The upstream `hugeCount` echoes the offset of
every request, reports `totalCount = 2` throughout and has `count ≥ 1` on every
page, but the page at offset 1 has `count = 9223372036854775807`, so that
`offset + count` overflows to `-9223372036854775808`.  `GetList` issues a third
request, more than `max 1 2`, and its offset is below the one before. -/
theorem getList_overflow_counterexample :
    (∀ (hist : List Request) (off : Int), 0 ≤ off → off < max 1 2 →
      ∃ p, GetJSON (envOf hugeCount) exClient decodeHugeCount hist ⟨"sites", off⟩ = .ok p ∧
        p.Offset = off ∧ p.TotalCount = 2 ∧ (off + p.Count < 2 → 1 ≤ p.Count)) ∧
      pull (envOf hugeCount) exClient decodeHugeCount "sites" 3 =
        .error ⟨[⟨⟨"sites", 0⟩, none⟩, ⟨⟨"sites", 1⟩, none⟩,
            ⟨⟨"sites", -9223372036854775808⟩, none⟩],
          [(⟨"s0"⟩, none), (⟨"s1"⟩, none)]⟩ ∧
      ¬ (3 ≤ (max 1 (2 : Int)).toNat) ∧ ¬ ((1 : Int) < -9223372036854775808) := by
  refine ⟨?_, rfl, by decide, by decide⟩
  intro hist off h0 h2
  have h : off = 0 ∨ off = 1 := by omega
  rcases h with rfl | rfl
  · exact ⟨⟨0, 1, 1, 2, [⟨"s0"⟩]⟩, rfl, rfl, rfl, by decide⟩
  · exact ⟨⟨1, 1, 9223372036854775807, 2, [⟨"s1"⟩]⟩, rfl, rfl, rfl, by decide⟩

/-! ## Theorems: HTTP status -/

/-- **C3, as amended.** `GetJSON` does not examine the status of the response.
For every page fetch whose response, 2xx or not, has a body that fails to
decode, `GetJSON` returns the decoding error, and `GetList` surfaces it as the
error half of the next yielded pair, the element half being the zero value,
and then ends.  A response whose body decodes is a successful page whatever its
status. -/
theorem getJSON_ignores_status {T : Type} [Inhabited T] (env : Env) (client : unifi)
    (decode : String → Except String (listResponse (List T))) (u : String)
    (off : Int) (s : Run (List (T × Option Err))) (res : Response)
    (hparse : env.urlParseErr u = none)
    (hnew : env.newRequestErr ⟨u, off⟩ = none)
    (hdo : client.Do env (s.calls.map Call.req) ⟨u, off⟩ = .ok res) :
    (∀ inner, decode res.Body = .error inner →
      GetJSON env client decode (s.calls.map Call.req) ⟨u, off⟩ = .error (.decoding inner) ∧
      ∀ fuel, GetList.loop env client decode u collect (fuel + 1) off s =
        .ok ⟨s.calls ++ [⟨⟨u, off⟩, some (.decoding inner)⟩],
          s.user ++ [(default, some (.decoding inner))]⟩) ∧
    (∀ p, decode res.Body = .ok p →
      GetJSON env client decode (s.calls.map Call.req) ⟨u, off⟩ = .ok p) := by
  constructor
  · intro inner hdec
    have hg : GetJSON env client decode (s.calls.map Call.req) ⟨u, off⟩ =
        .error (.decoding inner) := by
      simp only [GetJSON, hnew, hdo, hdec]
    exact ⟨hg, fun fuel => loop_collect_error env client decode u fuel off s _ hparse hg⟩
  · intro p hdec
    simp only [GetJSON, hnew, hdo, hdec]

/-- A 502 response with an HTML body gives one decoding error pair. -/
theorem getJSON_ignores_status_witness :
    GetJSON (envOf badGateway) exClient decodeBadGateway [] ⟨"sites", 0⟩ =
      .error (.decoding "invalid character < looking for beginning of value") ∧
    ∀ fuel, GetList.loop (envOf badGateway) exClient decodeBadGateway "sites" collect
        (fuel + 1) 0 ⟨[], []⟩ =
      .ok ⟨[] ++ [⟨⟨"sites", 0⟩,
          some (.decoding "invalid character < looking for beginning of value")⟩],
        [] ++ [(default, some (.decoding "invalid character < looking for beginning of value"))]⟩ :=
  (getJSON_ignores_status (envOf badGateway) exClient decodeBadGateway "sites" 0 ⟨[], []⟩
    ⟨502, "<html><body>502 Bad Gateway</body></html>"⟩ rfl rfl rfl).1
    "invalid character < looking for beginning of value" rfl

/-- **C3, as stated, fails.** The upstream `unauthorized` answers with status
401 and a JSON error document.  `GetJSON` decodes it into a page whose fields
are all zero and returns no error; `GetList` yields nothing, no error pair
either, and ends as if the list were empty. -/
theorem getJSON_non2xx_counterexample :
    (envOf unauthorized).Do exClient [] ⟨"sites", 0⟩ = .ok ⟨401, unauthorizedBody⟩ ∧
    GetJSON (envOf unauthorized) exClient decodeUnauthorized [] ⟨"sites", 0⟩ =
      .ok ⟨0, 0, 0, 0, []⟩ ∧
    pull (envOf unauthorized) exClient decodeUnauthorized "sites" 1 =
      .ok ⟨[⟨⟨"sites", 0⟩, none⟩], []⟩ :=
  ⟨rfl, rfl, rfl⟩

/-! ## Theorems: the handler, concrete runs -/

theorem requestsFor_url {T : Type} (u : String) (ps : List (listResponse (List T)))
    (off : Int) : ∀ r ∈ requestsFor u off ps, r.url = u := by
  induction ps generalizing off with
  | nil => intro r hr; simp [requestsFor] at hr
  | cons p ps ih =>
    intro r hr
    simp only [requestsFor, List.mem_cons] at hr
    rcases hr with rfl | hr
    · rfl
    · exact ih _ r hr

theorem loop_serves_empty {T κ : Type} [Inhabited T] (env : Env) (client : unifi)
    (decode : String → Except String (listResponse (List T))) (u : String) (y : Yield T κ)
    (ps : List (listResponse (List T))) (fuel : Nat) (off : Int)
    (s : Run κ) (hparse : env.urlParseErr u = none)
    (hserve : Serves (GetJSON env client decode) u (s.calls.map Call.req) off ps)
    (hgo : ∀ p ∈ ps, ¬ wrapInt (p.Offset + p.Count) ≥ p.TotalCount)
    (hempty : ∀ p ∈ ps, p.Data = []) :
    GetList.loop env client decode u y (ps.length + fuel) off s =
      GetList.loop env client decode u y fuel (cursorAfter off ps)
        ⟨s.calls ++ okCalls (requestsFor u off ps), s.user⟩ := by
  induction ps generalizing off s with
  | nil => simp [cursorAfter, requestsFor, okCalls]
  | cons p ps ih =>
    obtain ⟨h1, h2⟩ := hserve
    have hp := hgo p (List.mem_cons_self _ _)
    have hd := hempty p (List.mem_cons_self _ _)
    rw [show (p :: ps).length + fuel = (ps.length + fuel) + 1 by simp; omega]
    rw [loop_fetch_ok env client decode u y _ off s p hparse h1, hd]
    simp only [yieldData, if_neg hp]
    rw [ih]
    · simp [cursorAfter, requestsFor, okCalls, Run.log]
    · simpa [Run.log] using h2
    · intro q hq; exact hgo q (List.mem_cons_of_mem _ hq)
    · intro q hq; exact hempty q (List.mem_cons_of_mem _ hq)

/-- **C6, as amended.** When the sites fetch fails before any site has been
yielded (the failing page is the first one, or every sites page before it
carried no site), `ServeHTTP` makes zero requests to any devices endpoint:
every request of that inbound request is a page request for the sites
endpoint, the last of them the one that failed, and the response is the 500
of that error. -/
theorem serveHTTP_no_devices_request_before_first_site (env : Env) (client : unifi)
    (decodeSites : String → Except String (listResponse (List site)))
    (decodeDevices : String → Except String (listResponse (List device)))
    (ps : List (listResponse (List site))) (e : Err)
    (hparse : env.urlParseErr (sitesURL env client) = none)
    (hserve : Serves (GetJSON env client decodeSites) (sitesURL env client) [] 0 ps)
    (hgo : ∀ p ∈ ps, ¬ wrapInt (p.Offset + p.Count) ≥ p.TotalCount)
    (hempty : ∀ p ∈ ps, p.Data = [])
    (herr : GetJSON env client decodeSites (requestsFor (sitesURL env client) 0 ps)
      ⟨sitesURL env client, cursorAfter 0 ps⟩ = .error e) :
    ∀ fuel, ps.length + 1 ≤ fuel →
      ∃ ex, ServeHTTP env client decodeSites decodeDevices fuel = .ok ex ∧
        ex.calls = okCalls (requestsFor (sitesURL env client) 0 ps) ++
          [⟨⟨sitesURL env client, cursorAfter 0 ps⟩, some e⟩] ∧
        (∀ c ∈ ex.calls, c.req.url = sitesURL env client) ∧
        ex.w = httpError e.Error 500 := by
  intro fuel hfuel
  obtain ⟨f, hf⟩ : ∃ f, fuel = ps.length + (f + 1) := ⟨fuel - ps.length - 1, by omega⟩
  have hrun : GetList env client decodeSites (sitesURL env client)
      (siteBody env client decodeDevices fuel) fuel ⟨[], ⟨none, none⟩⟩ =
      .ok ⟨okCalls (requestsFor (sitesURL env client) 0 ps) ++
          [⟨⟨sitesURL env client, cursorAfter 0 ps⟩, some e⟩], ⟨none, some e.Error⟩⟩ := by
    unfold GetList
    conv => lhs; arg 6; rw [hf]
    rw [loop_serves_empty env client decodeSites (sitesURL env client)
      (siteBody env client decodeDevices fuel) ps (f + 1) 0
      (⟨[], ⟨none, none⟩⟩ : Run Handler) hparse (by simpa using hserve) hgo hempty]
    rw [loop_fetch_error env client decodeSites (sitesURL env client) _ f _ _ e hparse
      (by simpa [okCalls, Function.comp_def] using herr)]
    simp [siteBody, Run.log]
  refine ⟨⟨_, httpError e.Error 500⟩, ?_, rfl, ?_, rfl⟩
  · simp only [ServeHTTP, hrun]
  · intro c hc
    simp only [okCalls, List.mem_append, List.mem_map, List.mem_singleton] at hc
    rcases hc with ⟨r, hr, rfl⟩ | rfl
    · exact requestsFor_url _ ps 0 r hr
    · rfl

set_option maxRecDepth 100000 in
/-- An upstream that refuses every connection gets one request, for the first
sites page. -/
theorem serveHTTP_no_devices_request_before_first_site_witness :
    ∃ ex, ServeHTTP (envOf refusesAll) exClient decodeSites decodeDevices 1 = .ok ex ∧
      ex.calls = okCalls (requestsFor (sitesURL (envOf refusesAll) exClient) 0
          ([] : List (listResponse (List site)))) ++
        [⟨⟨sitesURL (envOf refusesAll) exClient, cursorAfter 0 ([] : List (listResponse (List site)))⟩,
          some (.roundTrip "GET" (exSitesURL ++ "?offset=0") "connection refused")⟩] ∧
      (∀ c ∈ ex.calls, c.req.url = sitesURL (envOf refusesAll) exClient) ∧
      ex.w = httpError (Err.Error
        (.roundTrip "GET" (exSitesURL ++ "?offset=0") "connection refused")) 500 :=
  serveHTTP_no_devices_request_before_first_site (envOf refusesAll) exClient decodeSites
    decodeDevices [] (.roundTrip "GET" (exSitesURL ++ "?offset=0") "connection refused") rfl
    trivial (by intro p hp; cases hp) (by intro p hp; cases hp) rfl 1 (le_refl _)

set_option maxRecDepth 100000 in
/-- **C6, as stated, fails.** Against `secondSitesPageFails` the sites fetch
fails, on its second page, and by then `ServeHTTP` has requested the devices of
the site of the first page: the log holds a request to a devices endpoint. -/
theorem serveHTTP_devices_requested_counterexample :
    ServeHTTP (envOf secondSitesPageFails) exClient decodeSites decodeDevices 3 =
      .ok ⟨[⟨⟨exSitesURL, 0⟩, none⟩, ⟨⟨exDevicesURL, 0⟩, none⟩,
          ⟨⟨exSitesURL, 1⟩, some (.roundTrip "GET" (exSitesURL ++ "?offset=1") "connection refused")⟩],
        httpError (Err.Error
          (.roundTrip "GET" (exSitesURL ++ "?offset=1") "connection refused")) 500⟩ ∧
    sitesURL (envOf secondSitesPageFails) exClient = exSitesURL ∧
    devicesURL (envOf secondSitesPageFails) exClient "s1" = exDevicesURL ∧
    exDevicesURL ≠ exSitesURL :=
  ⟨rfl, rfl, rfl, by decide⟩

set_option maxRecDepth 100000 in
/-- **C7: the code departs from the claim.** Against an upstream with no site
the enumeration is free of errors and no device is enumerated; `tt` is still
the nil slice when it is encoded, so the body written with status 200 is the
JSON value `null`, not the empty array. -/
theorem serveHTTP_empty_document_is_null :
    ServeHTTP (envOf noSites) exClient decodeSites decodeDevices 1 =
      .ok ⟨[⟨⟨exSitesURL, 0⟩, none⟩],
        { ContentType := "application/json", Code := 200, Body := .jsonLine .null,
          panicked := none }⟩ ∧
    JSON.null ≠ JSON.arr [] :=
  ⟨rfl, by intro h; cases h⟩

/-! ## Theorems: first error wins -/

theorem ne_empty_of_length_pos (s : String) (h : 0 < s.length) : s ≠ "" := by
  rintro rfl
  simp at h

theorem getJSON_error_nonempty {O : Type} (env : Env) (client : unifi)
    (decode : String → Except String O) (hist : List Request) (req : Request) (e : Err)
    (h : GetJSON env client decode hist req = .error e) : e.Error ≠ "" := by
  apply ne_empty_of_length_pos
  unfold GetJSON at h
  split at h
  · cases h
    simp only [Err.Error, String.length_append]
    have : "creating request: ".length = 18 := rfl
    omega
  · split at h
    · cases h
      simp only [Err.Error, String.length_append]
      have : ": ".length = 2 := rfl
      omega
    · split at h
      · cases h
        simp only [Err.Error, String.length_append]
        have : "decoding response: ".length = 19 := rfl
        omega
      · cases h

theorem yieldData_post {T κ : Type} (y : Yield T κ) (going ended starved : Run κ → Prop)
    (hy : ∀ x s, going s → PostYield starved going ended (y x none s))
    (xs : List T) (s : Run κ) (hs : going s) :
    PostYield starved going ended (yieldData y xs s) := by
  induction xs generalizing s with
  | nil => exact hs
  | cons x xs ih =>
    have h := hy x s hs
    unfold yieldData
    cases hres : y x none s with
    | error s1 => rw [hres] at h; exact h
    | ok bs =>
      obtain ⟨b, s1⟩ := bs
      rw [hres] at h
      cases b with
      | false => exact h
      | true => exact ih s1 h

theorem loop_post {T κ : Type} [Inhabited T] (env : Env) (client : unifi)
    (decode : String → Except String (listResponse (List T))) (u : String) (y : Yield T κ)
    (going ended starved : Run κ → Prop)
    (hy : ∀ x s, going s → PostYield starved going ended (y x none s))
    (hlast : ∀ e req s, going s → e.Error ≠ "" →
      PostLast starved ended (y default (some e) (s.log req (some e))))
    (hparse : ∀ text s, going s → PostLast starved ended (y default (some (.parse text)) s))
    (hlog : ∀ s req, going s → going (s.log req none))
    (hend : ∀ s, going s → ended s) (hstarve : ∀ s, going s → starved s)
    (fuel : Nat) (off : Int) (s : Run κ) (hs : going s) :
    PostLoop starved ended (GetList.loop env client decode u y fuel off s) := by
  induction fuel generalizing off s with
  | zero => exact hstarve s hs
  | succ f ih =>
    cases hp : env.urlParseErr u with
    | some text =>
      rw [loop_parse_error env client decode u y f off s text hp]
      have h := hparse text s hs
      cases hres : y default (some (.parse text)) s with
      | error s1 => rw [hres] at h; exact h
      | ok bs => obtain ⟨b, s1⟩ := bs; rw [hres] at h; exact h
    | none =>
      cases hg : GetJSON env client decode (s.calls.map Call.req) ⟨u, off⟩ with
      | error e =>
        rw [loop_fetch_error env client decode u y f off s e hp hg]
        have h := hlast e ⟨u, off⟩ s hs (getJSON_error_nonempty env client decode _ _ e hg)
        cases hres : y default (some e) (s.log ⟨u, off⟩ (some e)) with
        | error s1 => rw [hres] at h; exact h
        | ok bs => obtain ⟨b, s1⟩ := bs; rw [hres] at h; exact h
      | ok p =>
        rw [loop_fetch_ok env client decode u y f off s p hp hg]
        have h := yieldData_post y going ended starved hy p.Data (s.log ⟨u, off⟩ none)
          (hlog s _ hs)
        cases hres : yieldData y p.Data (s.log ⟨u, off⟩ none) with
        | error s1 => rw [hres] at h; exact h
        | ok bs =>
          obtain ⟨b, s1⟩ := bs
          rw [hres] at h
          cases b with
          | false => exact h
          | true =>
            show PostLoop starved ended (if _ then _ else _)
            split
            · exact hend s1 h
            · exact ih _ s1 h

theorem noFailure_append_ok (calls : List Call) (req : Request) (h : NoFailure calls) :
    NoFailure (calls ++ [⟨req, none⟩]) := by
  intro c hc
  simp only [List.mem_append, List.mem_singleton] at hc
  rcases hc with hc | rfl
  · exact h c hc
  · rfl

theorem deviceBody_post (dv : device) (s : Run Handler) (hs : Going s) :
    PostYield Starved Going Ended (deviceBody dv none s) :=
  hs

theorem body_last (e : Err) (req : Request) (s : Run Handler) (hs : Going s)
    (he : e.Error ≠ "") :
    Ended ⟨(s.log req (some e)).calls, { (s.log req (some e)).user with failed := some e.Error }⟩ :=
  Or.inr ⟨e, ⟨s.calls, req, rfl, hs.1⟩, rfl, he⟩

theorem devices_post (env : Env) (client : unifi)
    (decodeDevices : String → Except String (listResponse (List device))) (u : String)
    (fuel : Nat) (off : Int) (s : Run Handler) (hs : Going s) :
    PostLoop Starved Ended (GetList.loop env client decodeDevices u deviceBody fuel off s) :=
  loop_post env client decodeDevices u deviceBody Going Ended Starved
    deviceBody_post
    (fun e req s hs he => body_last e req s hs he)
    (fun _ _ hs => Or.inl hs.1)
    (fun s req hs => ⟨noFailure_append_ok s.calls req hs.1, hs.2⟩)
    (fun _ hs => Or.inl hs.1) (fun _ hs => hs.1) fuel off s hs

theorem siteBody_post (env : Env) (client : unifi)
    (decodeDevices : String → Except String (listResponse (List device))) (fuel : Nat)
    (st : site) (s : Run Handler) (hs : Going s) :
    PostYield Starved Going Ended (siteBody env client decodeDevices fuel st none s) := by
  have h := devices_post env client decodeDevices (devicesURL env client st.ID) fuel 0 s hs
  simp only [siteBody, GetList]
  cases hres : GetList.loop env client decodeDevices (devicesURL env client st.ID) deviceBody
      fuel 0 s with
  | error s1 => rw [hres] at h; exact h
  | ok s1 =>
    rw [hres] at h
    cases hf : s1.user.failed with
    | some msg =>
      simp only [hf]
      exact h
    | none =>
      simp only [hf]
      show Going s1
      rcases h with h | ⟨e, _, h2, _⟩
      · exact ⟨h, hf⟩
      · rw [hf] at h2; cases h2

theorem sites_post (env : Env) (client : unifi)
    (decodeSites : String → Except String (listResponse (List site)))
    (decodeDevices : String → Except String (listResponse (List device)))
    (fuel : Nat) :
    PostLoop Starved Ended (GetList env client decodeSites (sitesURL env client)
      (siteBody env client decodeDevices fuel) fuel ⟨[], ⟨none, none⟩⟩) :=
  loop_post env client decodeSites (sitesURL env client) (siteBody env client decodeDevices fuel)
    Going Ended Starved
    (siteBody_post env client decodeDevices fuel)
    (fun e req s hs he => body_last e req s hs he)
    (fun _ _ hs => Or.inl hs.1)
    (fun s req hs => ⟨noFailure_append_ok s.calls req hs.1, hs.2⟩)
    (fun _ hs => Or.inl hs.1) (fun _ hs => hs.1) fuel 0 ⟨[], ⟨none, none⟩⟩
    ⟨(by intro c hc; cases hc), rfl⟩

/-- **C5.** Whenever a fetch (of a sites page or of a devices page of some
site) yields an error during an inbound request, `ServeHTTP` has stopped at
that error: the run is complete, the failed page request is the last request
made and no request before it failed, the response has status 500, and its
body is the line `http.Error` writes for the text of that error, which is not
empty; no JSON value, hence no target record, is written. -/
theorem serveHTTP_stops_at_first_error (env : Env) (client : unifi)
    (decodeSites : String → Except String (listResponse (List site)))
    (decodeDevices : String → Except String (listResponse (List device))) (fuel : Nat)
    (hfail : ∃ c ∈ callsMade (ServeHTTP env client decodeSites decodeDevices fuel),
      c.err ≠ none) :
    ∃ ex init req e, ServeHTTP env client decodeSites decodeDevices fuel = .ok ex ∧
      ex.calls = init ++ [⟨req, some e⟩] ∧ NoFailure init ∧
      ex.w.Code = 500 ∧ ex.w.Body = .errorLine e.Error ∧ e.Error ≠ "" ∧
      (∀ v, ex.w.Body ≠ .jsonLine v) := by
  have h := sites_post env client decodeSites decodeDevices fuel
  obtain ⟨c, hc, hne⟩ := hfail
  unfold ServeHTTP at hc ⊢
  cases hres : GetList env client decodeSites (sitesURL env client)
      (siteBody env client decodeDevices fuel) fuel ⟨[], ⟨none, none⟩⟩ with
  | error s1 =>
    rw [hres] at h hc
    exact absurd (h c hc) hne
  | ok s1 =>
    rw [hres] at h hc
    rcases h with h | ⟨e, ⟨init, req, h1, h2⟩, h3, h4⟩
    · exfalso
      cases hf : s1.user.failed with
      | some msg => simp only [hf, callsMade] at hc; exact hne (h c hc)
      | none => simp only [hf, callsMade] at hc; exact hne (h c hc)
    · refine ⟨⟨s1.calls, httpError e.Error 500⟩, init, req, e, ?_, h1, h2, rfl, rfl, h4, ?_⟩
      · simp only [h3]
      · intro v hv; cases hv

set_option maxRecDepth 100000 in
/-- Against `secondSitesPageFails` the third request fails and the response is
the 500 of its error. -/
theorem serveHTTP_stops_at_first_error_witness :
    ∃ ex init req e,
      ServeHTTP (envOf secondSitesPageFails) exClient decodeSites decodeDevices 3 = .ok ex ∧
      ex.calls = init ++ [⟨req, some e⟩] ∧ NoFailure init ∧
      ex.w.Code = 500 ∧ ex.w.Body = .errorLine e.Error ∧ e.Error ≠ "" ∧
      (∀ v, ex.w.Body ≠ .jsonLine v) :=
  serveHTTP_stops_at_first_error (envOf secondSitesPageFails) exClient decodeSites
    decodeDevices 3
    ⟨⟨⟨exSitesURL, 1⟩, some (.roundTrip "GET" (exSitesURL ++ "?offset=1") "connection refused")⟩,
      by
        have h : callsMade (ServeHTTP (envOf secondSitesPageFails) exClient decodeSites
            decodeDevices 3) =
          [⟨⟨exSitesURL, 0⟩, none⟩, ⟨⟨exDevicesURL, 0⟩, none⟩,
            ⟨⟨exSitesURL, 1⟩,
              some (.roundTrip "GET" (exSitesURL ++ "?offset=1") "connection refused")⟩] := rfl
        rw [h]
        simp,
      by simp⟩

/-! ## Theorems: the document -/

theorem okPairs_eq_append {T : Type} (a xs : List T) (more : List (T × Option Err))
    (h : okPairs xs = okPairs a ++ more) : ∃ zs, xs = a ++ zs ∧ more = okPairs zs := by
  induction a generalizing xs with
  | nil => exact ⟨xs, rfl, by simpa [okPairs] using h.symm⟩
  | cons x a ih =>
    cases xs with
    | nil => simp [okPairs] at h
    | cons z zs =>
      simp only [okPairs, List.map_cons, List.cons_append, List.cons.injEq, Prod.mk.injEq,
        and_true] at h
      obtain ⟨zs2, h1, h2⟩ := ih zs h.2
      exact ⟨zs2, by rw [h.1, h1]; rfl, h2⟩

theorem okPairs_injective {T : Type} (a xs : List T) (h : okPairs xs = okPairs a) : xs = a := by
  obtain ⟨zs, h1, h2⟩ := okPairs_eq_append a xs [] (by simpa using h)
  cases zs with
  | nil => simpa using h1
  | cons z zs => simp [okPairs] at h2

theorem okPairs_ne_error {T : Type} (xs : List T) (x : T) (e : Err) :
    okPairs xs ≠ [(x, some e)] := by
  cases xs with
  | nil => simp [okPairs]
  | cons z zs => simp [okPairs]

theorem loop_collect_mono {T : Type} [Inhabited T] (env : Env) (client : unifi)
    (decode : String → Except String (listResponse (List T))) (u : String)
    (fuel : Nat) (off : Int) (s r : Run (List (T × Option Err)))
    (h : GetList.loop env client decode u collect fuel off s = .ok r) (fuel2 : Nat)
    (hle : fuel ≤ fuel2) :
    GetList.loop env client decode u collect fuel2 off s = .ok r := by
  induction fuel generalizing off s fuel2 with
  | zero => simp [GetList.loop] at h
  | succ f ih =>
    obtain ⟨g, rfl⟩ : ∃ g, fuel2 = g + 1 := ⟨fuel2 - 1, by omega⟩
    cases hp : env.urlParseErr u with
    | some text =>
      rw [loop_parse_error env client decode u collect f off s text hp] at h
      rw [loop_parse_error env client decode u collect g off s text hp]
      exact h
    | none =>
      cases hg : GetJSON env client decode (s.calls.map Call.req) ⟨u, off⟩ with
      | error e =>
        rw [loop_collect_error env client decode u f off s e hp hg] at h
        rw [loop_collect_error env client decode u g off s e hp hg]
        exact h
      | ok p =>
        rw [loop_collect_ok env client decode u f off s p hp hg] at h
        rw [loop_collect_ok env client decode u g off s p hp hg]
        by_cases hend : wrapInt (p.Offset + p.Count) ≥ p.TotalCount
        · rw [if_pos hend] at h ⊢
          exact h
        · rw [if_neg hend] at h ⊢
          exact ih _ _ h g (by omega)

theorem yieldData_steps {T κ : Type} (y : Yield T κ) (step : κ → T → κ) (I : κ → Prop)
    (xs : List T)
    (hy : ∀ x ∈ xs, ∀ s : Run κ, I s.user →
      ∃ c, y x none s = .ok (true, ⟨c, step s.user x⟩) ∧ I (step s.user x))
    (s : Run κ) (hs : I s.user) :
    ∃ c, yieldData y xs s = .ok (true, ⟨c, xs.foldl step s.user⟩) ∧ I (xs.foldl step s.user) := by
  induction xs generalizing s with
  | nil => exact ⟨s.calls, rfl, hs⟩
  | cons x xs ih =>
    obtain ⟨c, h1, h2⟩ := hy x (List.mem_cons_self _ _) s hs
    obtain ⟨c2, h3, h4⟩ := ih (fun z hz => hy z (List.mem_cons_of_mem _ hz)) ⟨c, step s.user x⟩ h2
    refine ⟨c2, ?_, h4⟩
    simp only [yieldData, h1]
    exact h3

theorem loop_replay {T κ : Type} [Inhabited T] (env : Env) (client : unifi)
    (decode : String → Except String (listResponse (List T))) (u : String)
    (y : Yield T κ) (step : κ → T → κ) (I : κ → Prop)
    (hstateless : ∀ h h2 r, GetJSON env client decode h r = GetJSON env client decode h2 r)
    (fuel : Nat) (off : Int) (s0 : Run (List (T × Option Err))) (xs : List T)
    (calls1 : List Call) (s : Run κ)
    (hpull : GetList.loop env client decode u collect fuel off s0 =
      .ok ⟨calls1, s0.user ++ okPairs xs⟩)
    (hy : ∀ x ∈ xs, ∀ s : Run κ, I s.user →
      ∃ c, y x none s = .ok (true, ⟨c, step s.user x⟩) ∧ I (step s.user x))
    (hs : I s.user) :
    ∃ c, GetList.loop env client decode u y fuel off s = .ok ⟨c, xs.foldl step s.user⟩ ∧
      I (xs.foldl step s.user) := by
  induction fuel generalizing off s0 xs s with
  | zero => simp [GetList.loop] at hpull
  | succ f ih =>
    cases hp : env.urlParseErr u with
    | some text =>
      rw [loop_parse_error env client decode u collect f off s0 text hp] at hpull
      simp only [collect, Except.ok.injEq, Run.mk.injEq, List.append_cancel_left_eq] at hpull
      exact absurd hpull.2.symm (okPairs_ne_error xs _ _)
    | none =>
      cases hg : GetJSON env client decode (s0.calls.map Call.req) ⟨u, off⟩ with
      | error e =>
        rw [loop_collect_error env client decode u f off s0 e hp hg] at hpull
        simp only [Except.ok.injEq, Run.mk.injEq, List.append_cancel_left_eq] at hpull
        exact absurd hpull.2.symm (okPairs_ne_error xs _ _)
      | ok p =>
        have hg2 : GetJSON env client decode (s.calls.map Call.req) ⟨u, off⟩ = .ok p := by
          rw [hstateless _ (s0.calls.map Call.req), hg]
        rw [loop_collect_ok env client decode u f off s0 p hp hg] at hpull
        rw [loop_fetch_ok env client decode u y f off s p hp hg2]
        by_cases hend : wrapInt (p.Offset + p.Count) ≥ p.TotalCount
        · rw [if_pos hend] at hpull
          simp only [Except.ok.injEq, Run.mk.injEq, List.append_cancel_left_eq] at hpull
          have hxs : xs = p.Data := okPairs_injective _ _ hpull.2.symm
          subst hxs
          obtain ⟨c, h1, h2⟩ : ∃ c, yieldData y p.Data (s.log ⟨u, off⟩ none) =
              .ok (true, ⟨c, p.Data.foldl step s.user⟩) ∧ I (p.Data.foldl step s.user) :=
            yieldData_steps y step I p.Data hy (s.log ⟨u, off⟩ none) hs
          refine ⟨c, ?_, h2⟩
          rw [h1]
          simp only [if_pos hend]
        · rw [if_neg hend] at hpull
          obtain ⟨new, more, hext, _⟩ := loop_collect_extends env client decode u f
            (wrapInt (p.Offset + p.Count))
            ⟨s0.calls ++ [⟨⟨u, off⟩, none⟩], s0.user ++ okPairs p.Data⟩
          rw [hpull] at hext
          simp only [reached, Run.mk.injEq, List.append_assoc, List.append_cancel_left_eq]
            at hext
          obtain ⟨zs, hz1, hz2⟩ := okPairs_eq_append p.Data xs more hext.2
          subst hz1
          obtain ⟨c, h1, h2⟩ : ∃ c, yieldData y p.Data (s.log ⟨u, off⟩ none) =
              .ok (true, ⟨c, p.Data.foldl step s.user⟩) ∧ I (p.Data.foldl step s.user) :=
            yieldData_steps y step I p.Data
              (fun x hx => hy x (List.mem_append_left _ hx)) (s.log ⟨u, off⟩ none) hs
          have hpull2 : GetList.loop env client decode u collect f
              (wrapInt (p.Offset + p.Count))
              ⟨s0.calls ++ [⟨⟨u, off⟩, none⟩], s0.user ++ okPairs p.Data⟩ =
              .ok ⟨calls1, (s0.user ++ okPairs p.Data) ++ okPairs zs⟩ := by
            rw [hpull]
            simp [okPairs]
          obtain ⟨c2, h3, h4⟩ := ih _ _ zs ⟨c, p.Data.foldl step s.user⟩ hpull2
            (fun x hx => hy x (List.mem_append_right _ hx)) h2
          refine ⟨c2, ?_, by simpa [List.foldl_append] using h4⟩
          rw [h1]
          simp only [if_neg hend]
          rw [h3]
          simp [List.foldl_append]

theorem getJSON_stateless {O : Type} (env : Env) (client : unifi)
    (decode : String → Except String O)
    (hstateless : ∀ h h2 r, env.Do client h r = env.Do client h2 r)
    (h h2 : List Request) (r : Request) :
    GetJSON env client decode h r = GetJSON env client decode h2 r := by
  simp only [GetJSON, unifi.Do, hstateless h h2 r]

theorem elems_append {α : Type} (t : Slice α) (x : α) :
    (t.append x).elems = t.elems ++ [x] := by
  cases t <;> rfl

theorem foldl_addDevice (ds : List device) (k : Handler) :
    (ds.foldl addDevice k).tt.elems = k.tt.elems ++ ds.map mkTarget ∧
      (ds.foldl addDevice k).failed = k.failed := by
  induction ds generalizing k with
  | nil => simp
  | cons d ds ih =>
    obtain ⟨h1, h2⟩ := ih (addDevice k d)
    simp only [List.foldl_cons, List.map_cons]
    rw [h1, h2]
    simp [addDevice, elems_append]

theorem foldl_sites (devs : site → List device) (sites : List site) (k : Handler) :
    (sites.foldl (fun k st => (devs st).foldl addDevice k) k).tt.elems =
      k.tt.elems ++ sites.flatMap (fun st => (devs st).map mkTarget) := by
  induction sites generalizing k with
  | nil => simp
  | cons st sites ih =>
    simp only [List.foldl_cons, ih, (foldl_addDevice (devs st) k).1, List.flatMap_cons,
      List.append_assoc]

theorem length_flatMap_devices (devs : site → List device) (sites : List site) :
    (sites.flatMap (fun st => (devs st).map mkTarget)).length =
      (sites.map (fun st => (devs st).length)).sum := by
  induction sites with
  | nil => rfl
  | cons st sites ih => simp [List.flatMap_cons, ih]

/-- Records of an enumeration, for an upstream whose answers depend on the
request alone: when pulling the sites yields `s_1 .. s_N` without error and
pulling the devices of each `s_i` yields `d_i1 .. d_iM_i` without error,
`ServeHTTP` ends with status 200 and encodes the slice `tt`, whose elements
are the records of the devices, sites in enumeration order and within a site
its devices in enumeration order.  The body is the JSON array of these records
only when there is at least one: a slice that was never appended to is nil and
encodes as `null`. -/
theorem serveHTTP_lists_every_device (env : Env) (client : unifi)
    (decodeSites : String → Except String (listResponse (List site)))
    (decodeDevices : String → Except String (listResponse (List device)))
    (sites : List site) (devs : site → List device) (n : Nat)
    (hstateless : ∀ h h2 r, env.Do client h r = env.Do client h2 r)
    (hsites : ∃ calls, pull env client decodeSites (sitesURL env client) n =
      .ok ⟨calls, okPairs sites⟩)
    (hdevs : ∀ st ∈ sites, ∃ calls,
      pull env client decodeDevices (devicesURL env client st.ID) n =
        .ok ⟨calls, okPairs (devs st)⟩) :
    ∀ fuel, n ≤ fuel →
      ∃ ex tt, ServeHTTP env client decodeSites decodeDevices fuel = .ok ex ∧
        ex.w.Code = 200 ∧ ex.w.ContentType = "application/json" ∧
        ex.w.Body = .jsonLine (marshal tt) ∧
        tt.elems = sites.flatMap (fun st => (devs st).map mkTarget) ∧
        tt.elems.length = (sites.map (fun st => (devs st).length)).sum ∧
        (∀ dv : device, (mkTarget dv).Targets = [dv.IPAddress] ∧
          (mkTarget dv).Labels =
            [("device_id", dv.ID), ("device_name", dv.Name), ("device_model", dv.Model)]) ∧
        (tt.elems ≠ [] → ex.w.Body = .jsonLine (.arr (tt.elems.map marshalTarget))) := by
  intro fuel hfuel
  obtain ⟨callsS, hS⟩ := hsites
  have hS2 := loop_collect_mono env client decodeSites (sitesURL env client) n 0 ⟨[], []⟩ _ hS
    fuel hfuel
  have hinner : ∀ st ∈ sites, ∀ s : Run Handler, s.user.failed = none →
      ∃ c, siteBody env client decodeDevices fuel st none s =
          .ok (true, ⟨c, (devs st).foldl addDevice s.user⟩) ∧
        ((devs st).foldl addDevice s.user).failed = none := by
    intro st hst s hs
    obtain ⟨callsD, hD⟩ := hdevs st hst
    have hD2 := loop_collect_mono env client decodeDevices (devicesURL env client st.ID) n 0
      ⟨[], []⟩ _ hD fuel hfuel
    obtain ⟨c, h1, h2⟩ := loop_replay env client decodeDevices (devicesURL env client st.ID)
      deviceBody addDevice (fun k => k.failed = none)
      (getJSON_stateless env client decodeDevices hstateless) fuel 0 ⟨[], []⟩ (devs st) callsD s
      (by simpa using hD2)
      (fun dv _ s hs => ⟨s.calls, rfl, hs⟩) hs
    refine ⟨c, ?_, h2⟩
    simp only [siteBody, GetList, h1, h2]
  obtain ⟨c, h1, h2⟩ := loop_replay env client decodeSites (sitesURL env client)
    (siteBody env client decodeDevices fuel) (fun k st => (devs st).foldl addDevice k)
    (fun k => k.failed = none)
    (getJSON_stateless env client decodeSites hstateless) fuel 0 ⟨[], []⟩ sites callsS
    ⟨[], ⟨none, none⟩⟩ (by simpa using hS2) hinner rfl
  have helems : (sites.foldl (fun k st => (devs st).foldl addDevice k) ⟨none, none⟩).tt.elems =
      sites.flatMap (fun st => (devs st).map mkTarget) := by
    rw [foldl_sites]
    rfl
  obtain ⟨final, hfinal⟩ : ∃ k : Handler,
      k = sites.foldl (fun k st => (devs st).foldl addDevice k) ⟨none, none⟩ := ⟨_, rfl⟩
  simp only [← hfinal] at h1 h2 helems
  have hserve : ServeHTTP env client decodeSites decodeDevices fuel =
      .ok ⟨c, ResponseRecorder.mk "application/json" 200 (.jsonLine (marshal final.tt))
        env.writeErr⟩ := by
    simp only [ServeHTTP, GetList, h1, h2]
  refine ⟨_, final.tt, hserve, rfl, rfl, rfl, helems, ?_, fun dv => ⟨rfl, rfl⟩, ?_⟩
  · rw [helems, length_flatMap_devices]
  · intro hne
    cases htt : final.tt with
    | none => rw [htt] at hne; exact absurd rfl hne
    | some l => rfl

set_option maxRecDepth 100000 in
/-- Example of `serveHTTP_lists_every_device`: one site with two devices gives
the two records, in order. -/
theorem serveHTTP_lists_every_device_witness :
    ∃ ex tt, ServeHTTP (envOf home) exClient decodeSites decodeDevices 1 = .ok ex ∧
      ex.w.Code = 200 ∧ ex.w.Body = .jsonLine (marshal tt) ∧
      tt.elems = [mkTarget exDevice1, mkTarget exDevice2] := by
  obtain ⟨ex, tt, h1, h2, _, h4, h5, _⟩ :=
    serveHTTP_lists_every_device (envOf home) exClient decodeSites decodeDevices
      [⟨"s1"⟩] (fun _ => [exDevice1, exDevice2]) 1 (fun _ _ _ => rfl) ⟨_, rfl⟩
      (by
        intro st hst
        simp only [List.mem_singleton] at hst
        subst hst
        exact ⟨_, rfl⟩)
      1 (le_refl 1)
  exact ⟨ex, tt, h1, h2, h4, h5⟩

set_option maxRecDepth 100000 in
/-- **C4: the code departs from the claim.** The upstream `siteWithoutDevices`
yields one site, `s1`, without error and, for that site, no device, without
error (`N = 1`, `M_1 = 0`).  The list of target records the claim describes is
the empty list, `Σ M_i = 0` records; `ServeHTTP` responds with status 200 and
the JSON value `null`, because `tt` is still the nil slice when it is encoded.
The defect is the one of C7. -/
theorem serveHTTP_site_without_devices_is_null :
    pull (envOf siteWithoutDevices) exClient decodeSites
        (sitesURL (envOf siteWithoutDevices) exClient) 1 =
      .ok ⟨[⟨⟨exSitesURL, 0⟩, none⟩], okPairs [⟨"s1"⟩]⟩ ∧
    pull (envOf siteWithoutDevices) exClient decodeDevices
        (devicesURL (envOf siteWithoutDevices) exClient "s1") 1 =
      .ok ⟨[⟨⟨exDevicesURL, 0⟩, none⟩], okPairs []⟩ ∧
    ServeHTTP (envOf siteWithoutDevices) exClient decodeSites decodeDevices 1 =
      .ok ⟨[⟨⟨exSitesURL, 0⟩, none⟩, ⟨⟨exDevicesURL, 0⟩, none⟩],
        { ContentType := "application/json", Code := 200, Body := .jsonLine .null,
          panicked := none }⟩ ∧
    JSON.null ≠ JSON.arr (([] : List target).map marshalTarget) :=
  ⟨rfl, rfl, rfl, by intro h; cases h⟩

end UnifiDiscovery
